import Mathlib

/-!
Verification of the crabwalk-for-windows core against its specification.

The development shallowly embeds the three core components:
* the Clawdbot gateway client (`src/integrations/clawdbot/client.ts`),
* the protocol helpers (`src/integrations/clawdbot/protocol.ts`),
* the graph layout engine (`src/lib/graph-layout`, shipped inside
  `src/integrations/trpc/router.ts` in this snapshot).

JavaScript numbers appearing here are all integral, so they are embedded as
`Int`/`Nat`.  JavaScript `Map`s are embedded as association lists which
preserve insertion order, matching the iteration order of `Map`.  The ambient
clock (`Date.now()`) is passed in as an explicit parameter wherever the source
reads it.
-/

namespace Crabwalk

/-! ## Protocol types (`protocol.ts`) -/

/-- `protocol.ts:30-36` — `ClientInfo`. -/
structure ClientInfo where
  id : String
  displayName : String
  version : String
  platform : String
  mode : String
deriving DecidableEq

/-- The `auth?: { token?: string }` field of `ConnectParams`. -/
structure AuthParams where
  token : Option String
deriving DecidableEq

/-- `protocol.ts:38-43` — `ConnectParams`. -/
structure ConnectParams where
  minProtocol : Nat
  maxProtocol : Nat
  client : ClientInfo
  auth : Option AuthParams
deriving DecidableEq

/-- `protocol.ts:51` — `stateVersion` pairs. -/
structure StateVersion where
  presence : Nat
  health : Nat
deriving DecidableEq

/-- `protocol.ts:56-60` — `PresenceEntry` (health payload of the snapshot is
`unknown` in the source and irrelevant to every claim, so it is omitted). -/
structure PresenceEntry where
  key : String
  client : ClientInfo
  connectedAt : Int
deriving DecidableEq

/-- The `snapshot` component of `HelloOk` (`protocol.ts:48-52`). -/
structure Snapshot where
  presence : List PresenceEntry
  stateVersion : StateVersion
deriving DecidableEq

/-- The `features` component of `HelloOk` (`protocol.ts:53`). -/
structure Features where
  methods : List String
  events : List String
deriving DecidableEq

/-- `protocol.ts:45-54` — `HelloOk`.  The `type: 'hello-ok'` discriminator is
constant and omitted.  `snapshot` and `features` are declared mandatory in the
TypeScript interface, but the client fabricates a value of this type by a bare
cast `{ type: 'hello-ok', protocol: 3 } as HelloOk` (`client.ts:45`), in which
both fields are absent at runtime; they are therefore embedded as `Option`. -/
structure HelloOk where
  protocol : Nat
  snapshot : Option Snapshot
  features : Option Features
deriving DecidableEq

/-- JavaScript truthiness of an optional string : `undefined` and `""` are
falsy, every other string is truthy. -/
def strOptTruthy : Option String → Bool
  | none => false
  | some s => !(s == "")

/-- `protocol.ts:145-158` — `createConnectParams`.  The source computes
`auth: token ? { token } : undefined`; the conditional is JavaScript
truthiness, so an empty token also yields `undefined`. -/
def createConnectParams (token : Option String) : ConnectParams :=
  { minProtocol := 3
    maxProtocol := 3
    client :=
      { id := "clawdbot"
        displayName := "Crabwalk Monitor"
        version := "0.1.0"
        platform := "node"
        mode := "bot" }
    auth :=
      match token with
      | some t => if t == "" then none else some { token := some t }
      | none => none }

/-- Result of `parseSessionKey` (`protocol.ts:128-133`). -/
structure ParsedSessionKey where
  agentId : String
  platform : String
  recipient : String
  isGroup : Bool
deriving DecidableEq

/-- The body of `parseSessionKey` (`protocol.ts:136-142`) acting on the
already-split segments.  `parts[i] || 'unknown'` yields `'unknown'` both when
the index is out of range (`undefined`) and when the segment is empty
(falsy); `parts[4] || ''` likewise collapses a missing fifth segment and an
empty one to `''`; `parts.slice(3).join(':')` is
`String.intercalate ":" (parts.drop 3)` (both give `""` past the end). -/
def parseSessionKeyParts (parts : List String) : ParsedSessionKey :=
  let agentId := if parts.getD 1 "" == "" then "unknown" else parts.getD 1 ""
  let platform := if parts.getD 2 "" == "" then "unknown" else parts.getD 2 ""
  let isGroup := parts.getD 3 "" == "group"
  let recipient := if isGroup then parts.getD 4 "" else String.intercalate ":" (parts.drop 3)
  { agentId := agentId, platform := platform, recipient := recipient, isGroup := isGroup }

/-- `protocol.ts:128-143` — `parseSessionKey`.  `key.split(':')` splits on the
single character `':'`, which is `String.split (· == ':')` in Lean (both
produce the list of—possibly empty—segments between colons, and `[""]` on the
empty string). -/
def parseSessionKey (key : String) : ParsedSessionKey :=
  parseSessionKeyParts (key.split (· == ':'))

/-- The session-key grammar of the spec: `agent:<a>:<p>:<r>` and
`agent:<a>:<p>:group:<r>`.  Defined by string concatenation, exactly the
shapes documented in the comment at `protocol.ts:134-135`. -/
def mkSessionKey (agentId platform recipient : String) (isGroup : Bool) : String :=
  if isGroup then
    "agent" ++ (":" ++ (agentId ++ (":" ++ (platform ++ (":" ++ ("group" ++ (":" ++ recipient)))))))
  else
    "agent" ++ (":" ++ (agentId ++ (":" ++ (platform ++ (":" ++ recipient)))))

/-! ## Gateway client state (`client.ts`) -/

/-- `client.ts:183` — delay in milliseconds passed to `setTimeout` by
`scheduleReconnect`. -/
def RECONNECT_DELAY_MS : Nat := 5000

/-- `client.ts:53` — the connect handshake deadline in milliseconds. -/
def CONNECT_TIMEOUT_MS : Nat := 10000

/-- `client.ts:206` — the per-request deadline in milliseconds. -/
def REQUEST_TIMEOUT_MS : Nat := 30000

/-- The connection-lifecycle fields of `ClawdbotClient` (`client.ts:22-32`):
`_connected`, `_connecting`, the `reconnectTimer` handle (embedded as the
delay it was armed with, or `none` when the handle is `null`), and whether
`this.ws` is non-null. -/
structure ClientState where
  connected : Bool
  connecting : Bool
  reconnectTimer : Option Nat
  wsPresent : Bool
deriving DecidableEq

/-- `client.ts:178-184` — `scheduleReconnect`: if a timer handle is already
stored, return; otherwise arm one timer with a 5000 ms delay. -/
def scheduleReconnect (s : ClientState) : ClientState :=
  if s.reconnectTimer.isSome then s
  else { s with reconnectTimer := some RECONNECT_DELAY_MS }

/-- `client.ts:90-99` — the socket `close` handler: remember whether the
client had reached Connected, drop to not-connected/not-connecting, and
schedule a reconnect only when it had been connected and the close code is
not the clean code 1000.  (The `clearTimeout` of the handshake deadline is
part of the `connect()` promise and does not touch the fields modelled
here.) -/
def onClose (s : ClientState) (code : Nat) : ClientState :=
  let wasConnected := s.connected
  let s' : ClientState := { s with connected := false, connecting := false }
  if wasConnected && code != 1000 then scheduleReconnect s' else s'

/-- `client.ts:226-236` — `disconnect()`: clear any pending reconnect timer,
drop the socket, and mark the client disconnected. -/
def disconnect (s : ClientState) : ClientState :=
  { s with reconnectTimer := none, wsPresent := false, connected := false }

/-- `client.ts:44-45` — the value `connect()` resolves with when a connection
is already established or in flight: the object literal
`{ type: 'hello-ok', protocol: 3 }` cast to `HelloOk`, carrying neither a
snapshot nor a feature list. -/
def stubHelloOk : HelloOk :=
  { protocol := 3, snapshot := none, features := none }

/-- `client.ts:43-56` — the synchronous head of `connect()`: when
`_connecting || _connected` resolve immediately with `stubHelloOk`; otherwise
mark the client connecting and create the socket (the handshake continues
asynchronously, returning no value yet). -/
def connect (s : ClientState) : ClientState × Option HelloOk :=
  if s.connecting || s.connected then (s, some stubHelloOk)
  else ({ s with connecting := true, wsPresent := true }, none)

/-- `client.ts:127-139` — completion of the handshake: on a `hello-ok` frame
(or a successful response whose payload is a `hello-ok`) the client becomes
connected and the `connect()` promise resolves with that received value. -/
def completeHandshake (s : ClientState) (h : HelloOk) : ClientState × HelloOk :=
  ({ s with connected := true, connecting := false }, h)

/-- `client.ts:180-182` — the reconnect timer callback: null the handle and
call `connect()` again. -/
def reconnectTimerFire (s : ClientState) : ClientState :=
  (connect { s with reconnectTimer := none }).1

/-! ## Request correlation (`client.ts:156-166`, `186-208`)

The pending map `pendingRequests` is embedded as the list of ids that hold an
entry; the resolve/reject callbacks of each pending promise are observed
through an append-only log of settlement outcomes.  All handlers run on the
single JavaScript thread, so a run of the subsystem is a fold over a sequence
of events. -/

/-- How a `request()` promise was settled. -/
inductive Outcome
  | resolved
  | rejectedError
  | rejectedTimeout
deriving DecidableEq

/-- Pending map plus the settlement log of one connection. -/
structure PendingState where
  pending : List String
  settled : List (String × Outcome)
deriving DecidableEq

/-- `client.ts:156-166` — `handleResponse`: look the id up in the pending map;
if present, delete the entry and settle the promise (resolve on `ok`,
reject with the remote error otherwise); if absent, do nothing. -/
def handleResponse (s : PendingState) (rid : String) (ok : Bool) : PendingState :=
  if s.pending.contains rid then
    { pending := s.pending.erase rid
      settled := s.settled ++ [(rid, if ok then Outcome.resolved else Outcome.rejectedError)] }
  else s

/-- `client.ts:201-206` — the request timeout callback: if the id still has a
pending entry, delete it and reject with `Request timeout`; otherwise do
nothing. -/
def fireRequestTimeout (s : PendingState) (rid : String) : PendingState :=
  if s.pending.contains rid then
    { pending := s.pending.erase rid
      settled := s.settled ++ [(rid, Outcome.rejectedTimeout)] }
  else s

/-- `client.ts:194-199` — issuing a request registers a fresh entry in the
pending map. -/
def registerRequest (s : PendingState) (rid : String) : PendingState :=
  { s with pending := rid :: s.pending }

/-- The events that can reach the correlation state for a given connection
after a request is registered. -/
inductive ReqEvent
  | response (rid : String) (ok : Bool)
  | timeoutFire (rid : String)

/-- One dispatch step of the single-threaded event loop. -/
def stepReq (s : PendingState) : ReqEvent → PendingState
  | ReqEvent.response rid ok => handleResponse s rid ok
  | ReqEvent.timeoutFire rid => fireRequestTimeout s rid

/-- A run of the event loop. -/
def runReq (s : PendingState) (evs : List ReqEvent) : PendingState :=
  evs.foldl stepReq s

/-- Number of pending entries for an id. -/
def pendCount (s : PendingState) (rid : String) : Nat :=
  s.pending.count rid

/-- Number of times an id's promise has been settled (resolved or rejected). -/
def settleCount (s : PendingState) (rid : String) : Nat :=
  (s.settled.filter (fun p => p.1 == rid)).length

/-! ## Event fan-out (`client.ts:67-82`, `168-176`) -/

/-- `protocol.ts:19-25` — an inbound event frame (payload/seq/stateVersion are
irrelevant to the fan-out behaviour and omitted). -/
structure EventFrame where
  event : String
deriving DecidableEq

/-- What one registered callback does when invoked: return normally or
throw. -/
inductive ListenerOutcome
  | ok
  | threw (msg : String)
deriving DecidableEq

/-- The observable behaviour of a registered listener. -/
def ListenerFn : Type := EventFrame → ListenerOutcome

/-- `client.ts:168-176` — `handleEvent`: loop over the listeners in
registration order; each call is wrapped in `try … catch`, so a `threw`
outcome is logged and the loop continues with the next listener. -/
def handleEvent : List ListenerFn → EventFrame → List ListenerOutcome
  | [], _ => []
  | l :: rest, e => l e :: handleEvent rest e

/-- What the message handler did with an inbound event frame. -/
inductive Dispatch
  | challengeConsumed
  | delivered (results : List ListenerOutcome)
deriving DecidableEq

/-- `client.ts:73-76` and `145-147` — dispatch of an inbound event frame: a
`connect.challenge` event is consumed by `handleChallenge` and never reaches
the listeners; every other event frame is handed to `handleEvent`. -/
def onEventFrame (listeners : List ListenerFn) (e : EventFrame) : Dispatch :=
  if e.event == "connect.challenge" then Dispatch.challengeConsumed
  else Dispatch.delivered (handleEvent listeners e)

/-- `protocol.ts:4-9` specialised to the connect request sent by
`handleChallenge` (`params?: unknown` is instantiated at `ConnectParams`). -/
structure RequestFrame where
  id : String
  method : String
  params : Option ConnectParams
deriving DecidableEq

/-- `client.ts:103-117` — `handleChallenge`: if no truthy token is configured
or the socket is not open, return without replying; otherwise send the
`connect` request built from `createConnectParams(this.token)` with id
`connect-${Date.now()}`. -/
def handleChallenge (token : Option String) (wsOpen : Bool) (now : Nat) :
    Option RequestFrame :=
  if !(strOptTruthy token) || !wsOpen then none
  else
    some
      { id := "connect-" ++ toString now
        method := "connect"
        params := some (createConnectParams token) }

/-! ## Claim C1 — reconnection policy -/

/-- C1: after the connection has reached Connected, a socket close with a
non-clean status code (≠ 1000) schedules exactly one reconnect attempt with
the 5-second delay; a second close before the timer fires changes nothing (in
particular it does not arm a second timer — `scheduleReconnect` never
replaces an armed timer, so at most one is ever outstanding); and a clean
close via `disconnect()` never triggers reconnection: the timer is cleared,
and the close event that follows schedules nothing. -/
theorem reconnect_policy :
    (∀ (s : ClientState) (code : Nat), s.connected = true → s.reconnectTimer = none →
      code ≠ 1000 → (onClose s code).reconnectTimer = some RECONNECT_DELAY_MS)
    ∧ (∀ (s : ClientState) (code code₂ : Nat), onClose (onClose s code) code₂ = onClose s code)
    ∧ (∀ (s : ClientState) (d : Nat), s.reconnectTimer = some d → scheduleReconnect s = s)
    ∧ (∀ (s : ClientState) (code : Nat), (disconnect s).reconnectTimer = none ∧
        (onClose (disconnect s) code).reconnectTimer = none) := by
  refine ⟨?_, ?_, ?_, ?_⟩
  · intro s code hc ht hcode
    simp only [onClose, hc, Bool.true_and, scheduleReconnect]
    have : (code != 1000) = true := by simpa using hcode
    simp [this, ht]
  · intro s code code₂
    cases s with
    | mk c cg t w =>
      simp only [onClose, scheduleReconnect]
      by_cases h : c = true
      · subst h
        by_cases h2 : (code != 1000) = true <;>
          simp [h2] <;> split <;> simp_all
      · have : c = false := by simpa using h
        subst this
        simp
  · intro s d hd
    simp [scheduleReconnect, hd]
  · intro s code
    constructor
    · rfl
    · simp [onClose, disconnect]

/-- Witness for `reconnect_policy` at a concrete state: a connected client
with no armed timer, closing with code 1006. -/
theorem reconnect_policy_witness :
    (onClose ⟨true, false, none, true⟩ 1006).reconnectTimer = some RECONNECT_DELAY_MS ∧
    onClose (onClose ⟨true, false, none, true⟩ 1006) 1006 = onClose ⟨true, false, none, true⟩ 1006 ∧
    scheduleReconnect ⟨true, false, some 5000, true⟩ = ⟨true, false, some 5000, true⟩ ∧
    (onClose (disconnect ⟨true, false, some 5000, true⟩) 1000).reconnectTimer = none := by
  refine ⟨?_, ?_, ?_, ?_⟩
  · exact reconnect_policy.1 ⟨true, false, none, true⟩ 1006 rfl rfl (by decide)
  · exact reconnect_policy.2.1 ⟨true, false, none, true⟩ 1006 1006
  · exact reconnect_policy.2.2.1 ⟨true, false, some 5000, true⟩ 5000 rfl
  · exact (reconnect_policy.2.2.2 (disconnect ⟨true, false, some 5000, true⟩) 1000).2.trans rfl

/-! ## Claim C2 — request timeout and exactly-once settlement -/

/-- A settle entry appended for `rid` bumps `settleCount` by one. -/
theorem settleCount_append (s : PendingState) (rid : String) (o : Outcome) :
    settleCount { pending := s.pending.erase rid, settled := s.settled ++ [(rid, o)] } rid =
      settleCount s rid + 1 := by
  simp [settleCount]

/-- The exactly-once invariant: an id has at most one pending entry and
settlement in total, and this is preserved by every event-loop step. -/
def settleInv (s : PendingState) (rid : String) : Prop :=
  pendCount s rid + settleCount s rid ≤ 1

/-- Both the response handler and the timeout callback, when the id is found
in the pending map, delete the entry and append one settlement. -/
theorem consume_inv (s : PendingState) (rid rid' : String) (o : Outcome)
    (hin : rid' ∈ s.pending) (h : settleInv s rid) :
    settleInv { pending := s.pending.erase rid', settled := s.settled ++ [(rid', o)] } rid := by
  unfold settleInv at h ⊢
  simp only [pendCount, settleCount, List.filter_append, List.length_append] at h ⊢
  by_cases hr : rid' = rid
  · subst hr
    have hp : 0 < s.pending.count rid' := List.count_pos_iff.mpr hin
    have he : (s.pending.erase rid').count rid' = s.pending.count rid' - 1 :=
      List.count_erase_self rid' s.pending
    have hone : (List.filter (fun p => p.1 == rid') [(rid', o)]).length = 1 := by
      simp
    omega
  · have he : (s.pending.erase rid').count rid = s.pending.count rid :=
      List.count_erase_of_ne (fun hh => hr hh.symm) s.pending
    have hzero : (List.filter (fun p => p.1 == rid) [(rid', o)]).length = 0 := by
      simp [List.filter_cons, hr]
    omega

theorem stepReq_inv (s : PendingState) (rid : String) (e : ReqEvent)
    (h : settleInv s rid) : settleInv (stepReq s e) rid := by
  cases e with
  | response rid' ok =>
    simp only [stepReq, handleResponse]
    split
    · rename_i hmem
      exact consume_inv s rid rid' _ (by simpa using hmem) h
    · exact h
  | timeoutFire rid' =>
    simp only [stepReq, fireRequestTimeout]
    split
    · rename_i hmem
      exact consume_inv s rid rid' _ (by simpa using hmem) h
    · exact h

theorem runReq_inv (s : PendingState) (rid : String) (evs : List ReqEvent)
    (h : settleInv s rid) : settleInv (runReq s evs) rid := by
  induction evs generalizing s with
  | nil => exact h
  | cons e rest ih => exact ih _ (stepReq_inv s rid e h)

/-- C2: the request subsystem settles each request id exactly once.  The
timeout callback uses the 30000 ms deadline; when it fires for a still
pending id the entry is deleted (pending count drops to zero, i.e. removed
exactly once) and the promise is rejected with `Request timeout` exactly
once; a response for an id whose entry was already discarded is ignored
(including a response racing the timeout: whichever of the two dispatches
first consumes the entry, the other is a no-op, so over any sequence of
events an id that starts with one pending entry and no settlement is settled
at most once — and in the two interleavings of a response and a timeout for
the same id, exactly once). -/
theorem request_timeout_exactly_once :
    (REQUEST_TIMEOUT_MS = 30000)
    ∧ (∀ (s : PendingState) (rid : String) (ok : Bool), ¬ rid ∈ s.pending →
        handleResponse s rid ok = s)
    ∧ (∀ (s : PendingState) (rid : String), ¬ rid ∈ s.pending →
        fireRequestTimeout s rid = s)
    ∧ (∀ (s : PendingState) (rid : String), pendCount s rid = 1 →
        pendCount (fireRequestTimeout s rid) rid = 0 ∧
        settleCount (fireRequestTimeout s rid) rid = settleCount s rid + 1 ∧
        (fireRequestTimeout s rid).settled = s.settled ++ [(rid, Outcome.rejectedTimeout)])
    ∧ (∀ (s : PendingState) (rid : String) (evs : List ReqEvent), settleInv s rid →
        settleCount (runReq s evs) rid ≤ 1)
    ∧ (∀ (s : PendingState) (rid : String) (ok : Bool),
        pendCount s rid = 1 → settleCount s rid = 0 →
        settleCount (runReq s [ReqEvent.response rid ok, ReqEvent.timeoutFire rid]) rid = 1 ∧
        settleCount (runReq s [ReqEvent.timeoutFire rid, ReqEvent.response rid ok]) rid = 1) := by
  have ignore_resp : ∀ (s : PendingState) (rid : String) (ok : Bool), ¬ rid ∈ s.pending →
      handleResponse s rid ok = s := by
    intro s rid ok h
    simp [handleResponse, h]
  have ignore_to : ∀ (s : PendingState) (rid : String), ¬ rid ∈ s.pending →
      fireRequestTimeout s rid = s := by
    intro s rid h
    simp [fireRequestTimeout, h]
  have fire : ∀ (s : PendingState) (rid : String), pendCount s rid = 1 →
      pendCount (fireRequestTimeout s rid) rid = 0 ∧
      settleCount (fireRequestTimeout s rid) rid = settleCount s rid + 1 ∧
      (fireRequestTimeout s rid).settled = s.settled ++ [(rid, Outcome.rejectedTimeout)] := by
    intro s rid h
    have hin : rid ∈ s.pending := by
      have : 0 < pendCount s rid := by omega
      exact List.count_pos_iff.mp this
    refine ⟨?_, ?_, ?_⟩
    · have := List.count_erase_self rid s.pending
      simp only [pendCount] at h ⊢
      simp [fireRequestTimeout, hin]
      omega
    · simp [fireRequestTimeout, hin, settleCount]
    · simp [fireRequestTimeout, hin]
  refine ⟨rfl, ignore_resp, ignore_to, fire, ?_, ?_⟩
  · intro s rid evs h
    have := runReq_inv s rid evs h
    unfold settleInv at this
    omega
  · intro s rid ok hp hs
    have hin : rid ∈ s.pending := by
      have : 0 < pendCount s rid := by omega
      exact List.count_pos_iff.mp this
    have hnot : ¬ rid ∈ s.pending.erase rid := by
      intro hmem
      have := List.count_erase_self rid s.pending
      have hpos : 0 < (s.pending.erase rid).count rid := List.count_pos_iff.mpr hmem
      simp [pendCount] at hp
      omega
    constructor
    · -- response first, then timeout: the response settles, the timeout is a no-op
      have h1 : handleResponse s rid ok =
          { pending := s.pending.erase rid
            settled := s.settled ++ [(rid, if ok then Outcome.resolved else Outcome.rejectedError)] } := by
        simp [handleResponse, hin]
      simp only [runReq, List.foldl, stepReq, h1]
      rw [ignore_to _ _ (by simpa using hnot)]
      simp only [settleCount, List.filter_append, List.length_append] at hs ⊢
      simp [hs]
    · -- timeout first, then response: the timeout settles, the response is a no-op
      have h1 : fireRequestTimeout s rid =
          { pending := s.pending.erase rid
            settled := s.settled ++ [(rid, Outcome.rejectedTimeout)] } := by
        simp [fireRequestTimeout, hin]
      simp only [runReq, List.foldl, stepReq, h1]
      rw [ignore_resp _ _ ok (by simpa using hnot)]
      simp only [settleCount, List.filter_append, List.length_append] at hs ⊢
      simp [hs]

/-- Witness for `request_timeout_exactly_once` at a concrete state: one
pending request `req-1`, a successful response racing the timeout. -/
theorem request_timeout_exactly_once_witness :
    settleCount (runReq ⟨["req-1"], []⟩
      [ReqEvent.response "req-1" true, ReqEvent.timeoutFire "req-1"]) "req-1" = 1 ∧
    settleCount (runReq ⟨["req-1"], []⟩
      [ReqEvent.timeoutFire "req-1", ReqEvent.response "req-1" true]) "req-1" = 1 := by
  exact request_timeout_exactly_once.2.2.2.2.2 ⟨["req-1"], []⟩ "req-1" true (by decide) (by decide)

/-! ## Claim C3 — `connect()` on an already-connected client -/

/-- C3 counterexample: complete a handshake whose `hello-ok` carried a feature
list (`features: { methods: ['sessions.list'], events: ['chat'] }`); calling
`connect()` again does not return that prior handshake result — it returns
the fabricated `{ type: 'hello-ok', protocol: 3 }` stub, which differs from
the prior result in its snapshot and features. -/
theorem connect_returns_prior_cex :
    (connect (completeHandshake ⟨false, true, none, true⟩
        ⟨3, none, some ⟨["sessions.list"], ["chat"]⟩⟩).1).2 ≠
      some (completeHandshake ⟨false, true, none, true⟩
        ⟨3, none, some ⟨["sessions.list"], ["chat"]⟩⟩).2 := by
  decide

/-- C3 amended: calling `connect()` while connected (or while a connect is in
flight) resolves immediately without touching the client state, but with the
synthesized stub `{ type: 'hello-ok', protocol: 3 }` — no snapshot and no
feature list — rather than the prior handshake result; in particular the
returned value differs from every handshake result that carried a snapshot or
a feature list. -/
theorem connect_already_connected (s : ClientState)
    (h : s.connecting = true ∨ s.connected = true) :
    connect s = (s, some stubHelloOk) ∧
    (∀ prior : HelloOk, prior.snapshot.isSome ∨ prior.features.isSome →
      (connect s).2 ≠ some prior) := by
  have hcond : (s.connecting || s.connected) = true := by
    rcases h with h | h <;> simp [h]
  constructor
  · simp [connect, hcond]
  · intro prior hprior heq
    simp only [connect, hcond, if_true] at heq
    have : stubHelloOk = prior := by simpa using heq
    subst this
    simp [stubHelloOk] at hprior

/-- Witness for `connect_already_connected`: a connected client. -/
theorem connect_already_connected_witness :
    connect ⟨true, false, none, true⟩ = (⟨true, false, none, true⟩, some stubHelloOk) ∧
    (connect ⟨true, false, none, true⟩).2 ≠
      some ⟨3, some ⟨[], ⟨0, 0⟩⟩, none⟩ := by
  refine ⟨(connect_already_connected ⟨true, false, none, true⟩ (Or.inr rfl)).1, ?_⟩
  exact (connect_already_connected ⟨true, false, none, true⟩ (Or.inr rfl)).2
    ⟨3, some ⟨[], ⟨0, 0⟩⟩, none⟩ (Or.inl rfl)

/-! ## Claim C4 — challenge handling -/

/-- C4 counterexample: a client configured without a bearer token receives the
challenge on an open socket and sends nothing — `handleChallenge` returns at
the `!this.token` guard, so the `connect` request is *not* sent when no token
is configured. -/
theorem challenge_without_token_cex :
    handleChallenge none true 0 = none := by
  rfl

/-- C4 amended: upon receiving the one-time challenge event the client sends
the `connect` request only when a (non-empty) bearer token is configured and
the socket is open; the request then carries the fixed client identity and
`auth: { token }`.  With no token configured (or a closed socket) the
challenge is ignored.  The token is optional only at the
`createConnectParams` level, which omits `auth` for an absent token. -/
theorem challenge_response (t : String) (now : Nat) (ht : t ≠ "") :
    (handleChallenge (some t) true now =
      some
        { id := "connect-" ++ toString now
          method := "connect"
          params := some (createConnectParams (some t)) })
    ∧ (createConnectParams (some t)).auth = some { token := some t }
    ∧ (createConnectParams (some t)).client =
        { id := "clawdbot", displayName := "Crabwalk Monitor", version := "0.1.0"
          platform := "node", mode := "bot" }
    ∧ (∀ (w : Bool) (n : Nat), handleChallenge none w n = none)
    ∧ (∀ (tk : Option String) (n : Nat), handleChallenge tk false n = none)
    ∧ (createConnectParams none).auth = none := by
  have htb : (t == "") = false := by simpa using ht
  refine ⟨?_, ?_, rfl, ?_, ?_, rfl⟩
  · simp [handleChallenge, strOptTruthy, htb]
  · simp [createConnectParams, htb]
  · intro w n
    simp [handleChallenge, strOptTruthy]
  · intro tk n
    simp [handleChallenge]

/-- Witness for `challenge_response` at the spec's scenario token
`"tok123"`, `Date.now() = 1000`. -/
theorem challenge_response_witness :
    handleChallenge (some "tok123") true 1000 =
      some
        { id := "connect-" ++ toString 1000
          method := "connect"
          params := some (createConnectParams (some "tok123")) } := by
  exact (challenge_response "tok123" 1000 (by decide)).1

/-! ## Claim C9 — event fan-out with fault isolation -/

/-- The catching loop of `handleEvent` invokes every listener: its result list
is the pointwise application of the registered listeners, in registration
order. -/
theorem handleEvent_eq_map (ls : List ListenerFn) (e : EventFrame) :
    handleEvent ls e = ls.map (fun l => l e) := by
  induction ls with
  | nil => rfl
  | cons l rest ih => simp [handleEvent, ih, List.map]

/-- C9: every inbound event frame other than the handshake challenge is
delivered to every registered listener in registration order — in particular
a listener that throws is caught and does not prevent the listeners after it
from being invoked — while the `connect.challenge` event is consumed
internally and never delivered to listeners. -/
theorem event_fanout :
    (∀ (ls : List ListenerFn) (e : EventFrame), e.event ≠ "connect.challenge" →
        onEventFrame ls e = Dispatch.delivered (ls.map (fun l => l e)))
    ∧ (∀ (ls₁ ls₂ : List ListenerFn) (l : ListenerFn) (e : EventFrame) (msg : String),
        e.event ≠ "connect.challenge" → l e = ListenerOutcome.threw msg →
        onEventFrame (ls₁ ++ l :: ls₂) e =
          Dispatch.delivered
            (ls₁.map (fun f => f e) ++ ListenerOutcome.threw msg :: ls₂.map (fun f => f e)))
    ∧ (∀ (ls : List ListenerFn) (e : EventFrame), e.event = "connect.challenge" →
        onEventFrame ls e = Dispatch.challengeConsumed) := by
  have base : ∀ (ls : List ListenerFn) (e : EventFrame), e.event ≠ "connect.challenge" →
      onEventFrame ls e = Dispatch.delivered (ls.map (fun l => l e)) := by
    intro ls e he
    have : (e.event == "connect.challenge") = false := by simpa using he
    simp [onEventFrame, this, handleEvent_eq_map]
  refine ⟨base, ?_, ?_⟩
  · intro ls₁ ls₂ l e msg he hl
    rw [base _ _ he]
    simp [hl]
  · intro ls e he
    simp [onEventFrame, he]

/-- Witness for `event_fanout`: a throwing listener followed by a normal one
both get invoked on a `chat` event; a `connect.challenge` event reaches no
listener. -/
theorem event_fanout_witness :
    onEventFrame [fun _ => ListenerOutcome.threw "boom", fun _ => ListenerOutcome.ok]
        ⟨"chat"⟩ =
      Dispatch.delivered [ListenerOutcome.threw "boom", ListenerOutcome.ok] ∧
    onEventFrame [fun _ => ListenerOutcome.threw "boom"] ⟨"connect.challenge"⟩ =
      Dispatch.challengeConsumed := by
  constructor
  · exact (event_fanout.2.1 [] [fun _ => ListenerOutcome.ok]
      (fun _ => ListenerOutcome.threw "boom") ⟨"chat"⟩ "boom" (by decide) rfl).trans rfl
  · exact event_fanout.2.2 [fun _ => ListenerOutcome.threw "boom"] ⟨"connect.challenge"⟩ rfl

/-! ## Claim C5 — session-key decomposition -/

/-- A string that does not contain the separator `':'`. -/
def colonFree (s : String) : Prop := ':' ∉ s.data

instance (s : String) : Decidable (colonFree s) := by
  unfold colonFree
  infer_instance

/-- Splitting `x ++ ":" ++ rest` on `':'` peels off the colon-free `x`. -/
theorem split_colon_cons (x rest : String) (hx : colonFree x) :
    (x ++ (":" ++ rest)).split (· == ':') = x :: rest.split (· == ':') := by
  rw [String.split_of_valid, String.split_of_valid]
  have hdata : (x ++ (":" ++ rest)).data = x.data ++ ':' :: rest.data := by
    simp [String.data_append]
  have hfree : ∀ c ∈ x.data, ¬((c == ':') = true) := by
    intro c hc
    simp only [beq_iff_eq]
    intro h
    exact hx (h ▸ hc)
  rw [hdata, List.splitOnP_first _ x.data hfree ':' (by simp) rest.data]
  have hmk : String.mk x.data = x := rfl
  simp [hmk]

/-- A colon-free string splits into the single segment it is. -/
theorem split_colon_single (s : String) (hs : colonFree s) :
    s.split (· == ':') = [s] := by
  rw [String.split_of_valid]
  have hfree : ∀ c ∈ s.data, ¬((c == ':') = true) := by
    intro c hc
    simp only [beq_iff_eq]
    intro h
    exact hs (h ▸ hc)
  rw [List.splitOnP_eq_single _ s.data hfree]
  have hmk : String.mk s.data = s := rfl
  simp [hmk]

/-- Splitting a key of the group grammar. -/
theorem split_group_key (a p r : String) (ha : colonFree a) (hp : colonFree p)
    (hr : colonFree r) :
    (mkSessionKey a p r true).split (· == ':') = ["agent", a, p, "group", r] := by
  have hkey : mkSessionKey a p r true =
      "agent" ++ (":" ++ (a ++ (":" ++ (p ++ (":" ++ ("group" ++ (":" ++ r))))))) := rfl
  rw [hkey, split_colon_cons _ _ (by decide), split_colon_cons _ _ ha,
    split_colon_cons _ _ hp, split_colon_cons _ _ (by decide), split_colon_single _ hr]

/-- Splitting a key of the non-group grammar. -/
theorem split_plain_key (a p r : String) (ha : colonFree a) (hp : colonFree p)
    (hr : colonFree r) :
    (mkSessionKey a p r false).split (· == ':') = ["agent", a, p, r] := by
  have hkey : mkSessionKey a p r false =
      "agent" ++ (":" ++ (a ++ (":" ++ (p ++ (":" ++ r))))) := rfl
  rw [hkey, split_colon_cons _ _ (by decide), split_colon_cons _ _ ha,
    split_colon_cons _ _ hp, split_colon_single _ hr]

/-- C5 counterexample: the group-grammar key
`agent:claude:telegram:group:12:34` — built from the tuple
`(claude, telegram, isGroup, "12:34")` — does not decompose back to that
tuple: the parser keeps only the segment before the recipient's first colon,
yielding recipient `"12"`. -/
theorem parseSessionKey_roundtrip_cex :
    parseSessionKey (mkSessionKey "claude" "telegram" "12:34" true) ≠
      ⟨"claude", "telegram", "12:34", true⟩ := by
  have hkey : mkSessionKey "claude" "telegram" "12:34" true =
      "agent:claude:telegram:group:12:34" := rfl
  rw [parseSessionKey, hkey, String.split_of_valid]
  decide

/-- C5 amended: decomposition round-trips on the unambiguous part of the
grammar — both `agentId` and `platform` nonempty and colon-free, the
recipient colon-free, and (in the non-group form) not the literal `group` —
and a missing or empty `agentId`/`platform` segment defaults to
`"unknown"`, while a missing recipient defaults to the empty string, not to
`"unknown"`. -/
theorem parseSessionKey_roundtrip :
    (∀ a p r : String, colonFree a → a ≠ "" → colonFree p → p ≠ "" → colonFree r →
      parseSessionKey (mkSessionKey a p r true) = ⟨a, p, r, true⟩)
    ∧ (∀ a p r : String, colonFree a → a ≠ "" → colonFree p → p ≠ "" → colonFree r →
        r ≠ "group" →
        parseSessionKey (mkSessionKey a p r false) = ⟨a, p, r, false⟩)
    ∧ parseSessionKey "agent" = ⟨"unknown", "unknown", "", false⟩
    ∧ parseSessionKey "agent:claude" = ⟨"claude", "unknown", "", false⟩
    ∧ parseSessionKey "agent:claude:whatsapp" = ⟨"claude", "whatsapp", "", false⟩ := by
  refine ⟨?_, ?_, ?_, ?_, ?_⟩
  · intro a p r ha ha0 hp hp0 hr
    rw [parseSessionKey, split_group_key a p r ha hp hr]
    have ha' : (a == "") = false := by simpa using ha0
    have hp' : (p == "") = false := by simpa using hp0
    simp [parseSessionKeyParts, ha', hp']
  · intro a p r ha ha0 hp hp0 hr hrg
    rw [parseSessionKey, split_plain_key a p r ha hp hr]
    have ha' : (a == "") = false := by simpa using ha0
    have hp' : (p == "") = false := by simpa using hp0
    have hr' : (r == "group") = false := by simpa using hrg
    simp [parseSessionKeyParts, ha', hp', hr', String.intercalate, String.intercalate.go]
  · rw [parseSessionKey, String.split_of_valid]
    decide
  · rw [parseSessionKey, String.split_of_valid]
    decide
  · rw [parseSessionKey, String.split_of_valid]
    decide

/-- Witness for `parseSessionKey_roundtrip` at the keys documented in the
source comment (`protocol.ts:134-135`). -/
theorem parseSessionKey_roundtrip_witness :
    parseSessionKey (mkSessionKey "claude" "whatsapp" "+1234567890" false) =
      ⟨"claude", "whatsapp", "+1234567890", false⟩ ∧
    parseSessionKey (mkSessionKey "claude" "telegram" "12345" true) =
      ⟨"claude", "telegram", "12345", true⟩ := by
  constructor
  · exact parseSessionKey_roundtrip.2.1 "claude" "whatsapp" "+1234567890"
      (by decide) (by decide) (by decide) (by decide) (by decide) (by decide)
  · exact parseSessionKey_roundtrip.1 "claude" "telegram" "12345"
      (by decide) (by decide) (by decide) (by decide) (by decide)

/-! ## Graph layout engine (`src/lib/graph-layout`)

The layout engine is embedded function-by-function.  JavaScript `Map`s are
association lists whose `set` replaces in place or appends (preserving the
insertion order that `Map` iteration follows).  `Array.prototype.sort` — a
stable sort under the ECMAScript specification, invoked here only with
consistent comparators — is embedded as `List.insertionSort`, the classic
stable insertion sort, with each numeric comparator `cmp` translated to the
relation `fun a b => cmp a b ≤ 0`.  `Date.now()` is the explicit `now`
parameter. -/

namespace Layout

/-- The fields of a session that the layout reads (`key`, `spawnedBy`,
`lastActivityAt`).  `spawnedBy` is optional in the source; `lastActivityAt`
is declared as a required `number`, but values reach the layout through
unchecked casts fed from `Partial<MonitorSession>` patches, and the source
itself guards it twice (`?? 0` and `?? Date.now()`), so it is embedded as
optional. -/
structure MonitorSession where
  key : String
  spawnedBy : Option String
  lastActivityAt : Option Int
deriving DecidableEq

/-- The fields of a timeline action the layout reads. -/
structure MonitorAction where
  sessionKey : String
  timestamp : Int
deriving DecidableEq

/-- The fields of an exec process the layout reads. -/
structure MonitorExecProcess where
  sessionKey : String
  startedAt : Int
deriving DecidableEq

/-- The `data` payload of a ReactFlow node.  The source reads it through
unchecked casts (`n.data as unknown as MonitorSession` etc.); the embedding
carries a tagged payload and the cast projections below default the fields
when the payload does not match, which models the `undefined` field reads of
a mismatched cast. -/
inductive NodeData
  | session (s : MonitorSession)
  | action (a : MonitorAction)
  | exec (e : MonitorExecProcess)
  | other
deriving DecidableEq

/-- `n.data as unknown as MonitorSession`. -/
def NodeData.asSession : NodeData → MonitorSession
  | NodeData.session s => s
  | _ => { key := "", spawnedBy := none, lastActivityAt := none }

/-- `n.data as unknown as MonitorAction`. -/
def NodeData.asAction : NodeData → MonitorAction
  | NodeData.action a => a
  | _ => { sessionKey := "", timestamp := 0 }

/-- `n.data as unknown as MonitorExecProcess`. -/
def NodeData.asExec : NodeData → MonitorExecProcess
  | NodeData.exec e => e
  | _ => { sessionKey := "", startedAt := 0 }

/-- A 2D position. -/
structure Pos where
  x : Int
  y : Int
deriving DecidableEq

/-- The ReactFlow node fields the layout touches. -/
structure Node where
  id : String
  type : String
  data : NodeData
  position : Pos
deriving DecidableEq

/-- Edges pass through the layout untouched. -/
structure Edge where
  id : String
  source : String
  target : String
deriving DecidableEq

/-- `LayoutOptions` — only `direction` is read by `layoutGraph`; the
remaining fields are declared but unused. -/
structure LayoutOptions where
  direction : Option String := none
  nodeWidth : Option Int := none
  nodeHeight : Option Int := none
  rankSep : Option Int := none
  nodeSep : Option Int := none
deriving DecidableEq

/-- `NODE_DIMENSIONS.session` — (width, height). -/
def SESSION_DIMS : Int × Int := (280, 140)

/-- `NODE_DIMENSIONS.exec`. -/
def EXEC_DIMS : Int × Int := (300, 120)

/-- `NODE_DIMENSIONS.action`. -/
def ACTION_DIMS : Int × Int := (220, 100)

/-- `NODE_DIMENSIONS.crab`. -/
def CRAB_DIMS : Int × Int := (64, 64)

/-- `NODE_DIMENSIONS[t]` as a keyed lookup. -/
def nodeDimensions (t : String) : Option (Int × Int) :=
  if t == "session" then some SESSION_DIMS
  else if t == "exec" then some EXEC_DIMS
  else if t == "action" then some ACTION_DIMS
  else if t == "crab" then some CRAB_DIMS
  else none

def COLUMN_GAP : Int := 400
def ROW_GAP : Int := 80
def SPAWN_OFFSET : Int := 60
def CRAB_OFFSET : Pos := ⟨-120, -100⟩
def ROOT_START_Y : Int := 200
def MIN_SESSION_GAP : Int := 120
def ROOT_HORIZONTAL_GAP : Int := 0

/-- One entry of a `SessionColumn`'s `items` array. -/
structure ColItem where
  nodeId : String
  itemType : String
  timestamp : Int
  data : NodeData
deriving DecidableEq

/-- A session's column record. -/
structure SessionColumn where
  sessionKey : String
  columnIndex : Nat
  rootIndex : Nat
  spawnY : Int
  items : List ColItem
deriving DecidableEq

/-- `Map.set`: replace an existing key in place, or append a new binding. -/
def mapSet {κ α : Type} [BEq κ] : List (κ × α) → κ → α → List (κ × α)
  | [], k, v => [(k, v)]
  | (k', v') :: rest, k, v =>
    if k' == k then (k, v) :: rest else (k', v') :: mapSet rest k v

/-- JavaScript truthiness of the `spawnedBy` field: `undefined` and `""` are
falsy. -/
def spawnedByTruthy (s : MonitorSession) : Bool :=
  match s.spawnedBy with
  | none => false
  | some p => !(p == "")

/-- `sessions.find(s => s.key === k)`. -/
def findSession (sessions : List MonitorSession) (k : String) : Option MonitorSession :=
  sessions.find? (fun s => s.key == k)

/-- Line 284 — a session is a root when `spawnedBy` is falsy or names a
session absent from the working set. -/
def isRoot (sessions : List MonitorSession) (s : MonitorSession) : Bool :=
  !(spawnedByTruthy s) || (findSession sessions (s.spawnedBy.getD "")).isNone

/-- `s.replace(pat, '')` on the underlying characters: remove the first
occurrence of `pat`, if any. -/
def replaceFirstChars (pat : List Char) : List Char → List Char
  | [] => if pat.isPrefixOf ([] : List Char) then ([] : List Char).drop pat.length else []
  | c :: rest =>
    if pat.isPrefixOf (c :: rest) then (c :: rest).drop pat.length
    else c :: replaceFirstChars pat rest

/-- `s.replace(pat, '')` — JavaScript `String.prototype.replace` with a
string pattern replaces only the first occurrence. -/
def replaceFirst (s pat : String) : String :=
  ⟨replaceFirstChars pat.data s.data⟩

/-- Lines 260-262 — the session payloads of the `type === 'session'` nodes. -/
def sessionsOf (nodes : List Node) : List MonitorSession :=
  (nodes.filter (fun n => n.type == "session")).map (fun n => n.data.asSession)

/-- Lines 264-266 — `{ id: n.id.replace('action-', ''), data: … }` for the
`type === 'action'` nodes. -/
def actionsOf (nodes : List Node) : List (String × MonitorAction) :=
  (nodes.filter (fun n => n.type == "action")).map
    (fun n => (replaceFirst n.id "action-", n.data.asAction))

/-- Lines 268-270 — likewise for the `type === 'exec'` nodes. -/
def execsOf (nodes : List Node) : List (String × MonitorExecProcess) :=
  (nodes.filter (fun n => n.type == "exec")).map
    (fun n => (replaceFirst n.id "exec-", n.data.asExec))

/-- Lines 283-293 — the deterministically ordered root list: roots in node
order, stable-sorted by session key (`localeCompare` is embedded as
code-point order), then indexed. -/
def rootKeyLe (a b : MonitorSession) : Prop := a.key ≤ b.key

instance : DecidableRel rootKeyLe := fun a b => by
  unfold rootKeyLe
  infer_instance

/-- Lines 292-293 — `rootSessions.forEach((root, idx) => sessionToRoot.set(root.key, idx))`. -/
def initRootMap (roots : List MonitorSession) : List (String × Nat) :=
  roots.enum.foldl (fun m p => mapSet m p.2.key p.1) []

/-- Lines 296-310 — `findRootIndex`, with the recursion bounded by explicit
fuel (`none` plays the role of non-termination; the theorem
`layout_traversals_terminate` shows the fuel used below always suffices).
The memo map `sessionToRoot` is threaded through and updated exactly where
the source mutates it. -/
def findRootIndexFuel (sessions : List MonitorSession) :
    Nat → List (String × Nat) → String → List String → Option (Nat × List (String × Nat))
  | 0, _, _, _ => none
  | fuel + 1, cache, key, visited =>
    if visited.contains key then some (0, cache)
    else
      let visited' := key :: visited
      match cache.lookup key with
      | some i => some (i, cache)
      | none =>
        match findSession sessions key with
        | none => some (0, cache)
        | some s =>
          if spawnedByTruthy s then
            match findRootIndexFuel sessions fuel cache (s.spawnedBy.getD "") visited' with
            | none => none
            | some (i, cache') => some (i, mapSet cache' key i)
          else some (0, cache)

/-- Lines 313-324 — `getSessionDepth`, fuel-bounded in the same way. -/
def getSessionDepthFuel (sessions : List MonitorSession) :
    Nat → String → List String → Option Nat
  | 0, _, _ => none
  | fuel + 1, key, visited =>
    if visited.contains key then some 0
    else
      let visited' := key :: visited
      match findSession sessions key with
      | none => some 0
      | some s =>
        if spawnedByTruthy s then
          (getSessionDepthFuel sessions fuel (s.spawnedBy.getD "") visited').map (· + 1)
        else some 0

/-- `getSessionDepth` with fresh visited set, at the sufficient fuel. -/
def getSessionDepth (sessions : List MonitorSession) (key : String) : Nat :=
  (getSessionDepthFuel sessions (sessions.length + 1) key []).getD 0

/-- `findRootIndex` with fresh visited set, at the sufficient fuel. -/
def findRootIndex (sessions : List MonitorSession) (cache : List (String × Nat))
    (key : String) : Nat × List (String × Nat) :=
  (findRootIndexFuel sessions (sessions.length + 1) cache key []).getD (0, cache)

/-- The loop body of lines 327-337 for one session (the column map and the
`sessionToRoot` memo map are the threaded state; `sessions` is the full
working set the two traversals search). -/
def assignStep (sessions : List MonitorSession)
    (acc : List (String × SessionColumn) × List (String × Nat))
    (session : MonitorSession) :
    List (String × SessionColumn) × List (String × Nat) :=
  let depth := getSessionDepth sessions session.key
  let fr := findRootIndex sessions acc.2 session.key
  (mapSet acc.1 session.key
    { sessionKey := session.key
      columnIndex := depth
      rootIndex := fr.1
      spawnY := if depth == 0 then ROOT_START_Y else 0
      items := [] },
   fr.2)

/-- Lines 327-337 — assign a column record to every session, threading the
`sessionToRoot` memo map through the `findRootIndex` calls. -/
def assignColumns (sessions : List MonitorSession) (rootMap : List (String × Nat)) :
    List (String × SessionColumn) × List (String × Nat) :=
  sessions.foldl (assignStep sessions) ([], rootMap)

/-- `const list = m.get(k) ?? []; list.push(a); m.set(k, list)`. -/
def groupPush {α : Type} (m : List (String × List α)) (k : String) (a : α) :
    List (String × List α) :=
  match m.lookup k with
  | some list => mapSet m k (list ++ [a])
  | none => mapSet m k [a]

/-- Comparator `(a, b) => a.data.timestamp - b.data.timestamp` as a relation. -/
def actionTimeLe (a b : String × MonitorAction) : Prop := a.2.timestamp ≤ b.2.timestamp

instance : DecidableRel actionTimeLe := fun a b => by
  unfold actionTimeLe
  infer_instance

/-- Comparator `(a, b) => a.data.startedAt - b.data.startedAt` as a relation. -/
def execTimeLe (a b : String × MonitorExecProcess) : Prop := a.2.startedAt ≤ b.2.startedAt

instance : DecidableRel execTimeLe := fun a b => by
  unfold execTimeLe
  infer_instance

/-- The shared shape of the two grouping loops (lines 341-347 and 355-361):
push each element with a truthy session key into its key's bucket. -/
def groupByKey {α : Type} (keyOf : α → String) (xs : List α) :
    List (String × List α) :=
  xs.foldl (fun m a => if keyOf a == "" then m else groupPush m (keyOf a) a) []

/-- Lines 339-351 — group the actions by (truthy) session key, then sort each
group by timestamp. -/
def actionsBySessionOf (actions : List (String × MonitorAction)) :
    List (String × List (String × MonitorAction)) :=
  (groupByKey (fun a => a.2.sessionKey) actions).map
    (fun p => (p.1, p.2.insertionSort actionTimeLe))

/-- Lines 354-365 — likewise for exec processes, by `startedAt`. -/
def execsBySessionOf (execs : List (String × MonitorExecProcess)) :
    List (String × List (String × MonitorExecProcess)) :=
  (groupByKey (fun e => e.2.sessionKey) execs).map
    (fun p => (p.1, p.2.insertionSort execTimeLe))

/-- Lines 402-407 — the item comparator: the session node sorts first, the
rest by timestamp (`cmp(a,b) ≤ 0`). -/
def itemLe (a b : ColItem) : Prop :=
  a.itemType = "session" ∨ (b.itemType ≠ "session" ∧ a.timestamp ≤ b.timestamp)

instance : DecidableRel itemLe := fun a b => by
  unfold itemLe
  infer_instance

/-- The session item pushed at lines 372-378. -/
def sessionItem (session : MonitorSession) : ColItem :=
  { nodeId := "session-" ++ session.key
    itemType := "session"
    timestamp := session.lastActivityAt.getD 0
    data := NodeData.session session }

/-- The action items pushed at lines 381-389. -/
def actionItem (a : String × MonitorAction) : ColItem :=
  { nodeId := "action-" ++ a.1
    itemType := "action"
    timestamp := a.2.timestamp
    data := NodeData.action a.2 }

/-- The exec items pushed at lines 392-400. -/
def execItem (e : String × MonitorExecProcess) : ColItem :=
  { nodeId := "exec-" ++ e.1
    itemType := "exec"
    timestamp := e.2.startedAt
    data := NodeData.exec e.2 }

/-- The loop body of lines 368-408 for one session: push its session item,
its action items and its exec items, then sort. -/
def buildItemsStep (actionsBy : List (String × List (String × MonitorAction)))
    (execsBy : List (String × List (String × MonitorExecProcess)))
    (cols : List (String × SessionColumn)) (session : MonitorSession) :
    List (String × SessionColumn) :=
  match cols.lookup session.key with
  | none => cols
  | some col =>
    let items := col.items ++ [sessionItem session]
      ++ ((actionsBy.lookup session.key).getD []).map actionItem
      ++ ((execsBy.lookup session.key).getD []).map execItem
    mapSet cols session.key { col with items := items.insertionSort itemLe }

/-- Lines 368-408 — build each session's item list: its own session node, its
actions and its execs, sorted with the session node first and the rest in
timestamp order. -/
def buildItems (sessions : List MonitorSession)
    (actionsBy : List (String × List (String × MonitorAction)))
    (execsBy : List (String × List (String × MonitorExecProcess)))
    (cols : List (String × SessionColumn)) : List (String × SessionColumn) :=
  sessions.foldl (buildItemsStep actionsBy execsBy) cols

/-- Lines 425-434 — count the parent's items up to the spawn instant: a
`session` item always counts, other items count when their timestamp is at
or before the child's creation time. -/
def countBeforeSpawn (items : List ColItem) (t : Int) : Nat :=
  items.foldl
    (fun n it =>
      if it.itemType == "session" then n + 1
      else if it.timestamp ≤ t then n + 1 else n)
    0

/-- The spawn instant the source approximates for a child session
(lines 421-422): its first action timestamp, else its `lastActivityAt`, else
`Date.now()` (the `now` parameter). -/
def childCreationTimeOf (actionsBy : List (String × List (String × MonitorAction)))
    (session : MonitorSession) (now : Int) : Int :=
  match ((actionsBy.lookup session.key).getD []).head? with
  | some a => a.2.timestamp
  | none =>
    match session.lastActivityAt with
    | some t => t
    | none => now

/-- The loop body of lines 412-438 for one session. -/
def spawnYStep (actionsBy : List (String × List (String × MonitorAction))) (now : Int)
    (cols : List (String × SessionColumn)) (session : MonitorSession) :
    List (String × SessionColumn) :=
  if !(spawnedByTruthy session) then cols
  else
    match cols.lookup (session.spawnedBy.getD ""), cols.lookup session.key with
    | some parentCol, some childCol =>
      let childCreationTime := childCreationTimeOf actionsBy session now
      let parentItemsBeforeSpawn := countBeforeSpawn parentCol.items childCreationTime
      mapSet cols session.key
        { childCol with
          spawnY :=
            (parentItemsBeforeSpawn : Int) * (ACTION_DIMS.2 + ROW_GAP) + SPAWN_OFFSET }
    | _, _ => cols

/-- Lines 410-438 — compute each child session's spawn `Y` from its parent's
timeline. -/
def computeSpawnY (sessions : List MonitorSession)
    (actionsBy : List (String × List (String × MonitorAction)))
    (cols : List (String × SessionColumn)) (now : Int) : List (String × SessionColumn) :=
  sessions.foldl (spawnYStep actionsBy now) cols

/-- An occupied vertical range of a column. -/
structure YRange where
  startY : Int
  endY : Int
deriving DecidableEq

/-- Lines 458-460 — the collision-tracking key: per (root, column) in
horizontal mode, per column in vertical mode. -/
def getColumnKey (isHorizontal : Bool) (rootIndex columnIndex : Nat) : String :=
  if isHorizontal then toString rootIndex ++ "-" ++ toString columnIndex
  else toString columnIndex

/-- `Math.max(...values.map(c => c.columnIndex))` over the column map (the
source's spread of an empty array would be `-Infinity`, but the expression is
only evaluated while positioning a session, i.e. when the map is nonempty,
so the base value is irrelevant). -/
def maxColumnIndex (cols : List (String × SessionColumn)) : Nat :=
  cols.foldl (fun m p => max m p.2.columnIndex) 0

/-- Lines 463-475 — the X position of a (root, column) slot. -/
def getColumnX (isHorizontal : Bool) (cols : List (String × SessionColumn))
    (rootIndex columnIndex : Nat) : Int :=
  if isHorizontal then
    let maxDepth : Int := (maxColumnIndex cols : Int) + 1
    let treeWidth := maxDepth * COLUMN_GAP
    (rootIndex : Int) * (treeWidth + ROOT_HORIZONTAL_GAP) + (columnIndex : Int) * COLUMN_GAP
  else (columnIndex : Int) * COLUMN_GAP

/-- Lines 478-497 — shift a session's desired Y below every previously
recorded overlapping range, then record the session's own range. -/
def adjustSpawnY (ranges : List YRange) (desiredY : Int) (itemCount : Nat) :
    Int × List YRange :=
  let estimatedHeight := (itemCount : Int) * (ACTION_DIMS.2 + ROW_GAP) + MIN_SESSION_GAP
  let adjustedY := ranges.foldl
    (fun adjustedY range =>
      if adjustedY < range.endY ∧ adjustedY + estimatedHeight > range.startY then
        range.endY + MIN_SESSION_GAP
      else adjustedY)
    desiredY
  (adjustedY, ranges ++ [{ startY := adjustedY, endY := adjustedY + estimatedHeight }])

/-- The `.get(key)!` fallback — never reached, since the sorted keys come
from the map itself. -/
def defaultColumn : SessionColumn :=
  { sessionKey := "", columnIndex := 0, rootIndex := 0, spawnY := 0, items := [] }

/-- Lines 501-514 — the session ordering: by root index (horizontal mode),
then depth, then desired Y (`cmp(a,b) ≤ 0` of the numeric comparator). -/
def sessionKeyLe (cols : List (String × SessionColumn)) (isHorizontal : Bool)
    (a b : String) : Prop :=
  let ca := (cols.lookup a).getD defaultColumn
  let cb := (cols.lookup b).getD defaultColumn
  if isHorizontal ∧ ca.rootIndex ≠ cb.rootIndex then ca.rootIndex < cb.rootIndex
  else if ca.columnIndex ≠ cb.columnIndex then ca.columnIndex < cb.columnIndex
  else ca.spawnY ≤ cb.spawnY

instance (cols : List (String × SessionColumn)) (isHorizontal : Bool) :
    DecidableRel (sessionKeyLe cols isHorizontal) := fun a b => by
  unfold sessionKeyLe
  infer_instance

/-- The mutable state of the positioning phase. -/
structure PositionState where
  positionedNodes : List Node
  positionedIds : List String
  columnRanges : List (String × List YRange)
  columnOccupancy : List (Nat × Int)
deriving DecidableEq

/-- Lines 525-537 — position one column's items top to bottom. -/
def placeItems (columnX : Int) : List ColItem → Int → List Node × Int
  | [], currentY => ([], currentY)
  | item :: rest, currentY =>
    let dims := (nodeDimensions item.itemType).getD (0, 0)
    let next := placeItems columnX rest (currentY + dims.2 + ROW_GAP)
    ({ id := item.nodeId
       type := item.itemType
       position := ⟨columnX, currentY⟩
       data := item.data } :: next.1, next.2)

/-- The loop body of lines 517-544 for one sorted session key. -/
def positionStep (isHorizontal : Bool) (cols : List (String × SessionColumn))
    (st : PositionState) (sessionKey : String) : PositionState :=
  let col := (cols.lookup sessionKey).getD defaultColumn
  let columnX := getColumnX isHorizontal cols col.rootIndex col.columnIndex
  let ckey := getColumnKey isHorizontal col.rootIndex col.columnIndex
  let ranges := (st.columnRanges.lookup ckey).getD []
  let adj := adjustSpawnY ranges col.spawnY col.items.length
  let placed := placeItems columnX col.items adj.1
  { positionedNodes := st.positionedNodes ++ placed.1
    positionedIds := st.positionedIds ++ col.items.map (·.nodeId)
    columnRanges := mapSet st.columnRanges ckey adj.2
    columnOccupancy :=
      mapSet st.columnOccupancy col.columnIndex
        (max ((st.columnOccupancy.lookup col.columnIndex).getD 0) placed.2) }

/-- Lines 517-544 — position every session column in sorted order,
accumulating collision ranges and column occupancy. -/
def positionColumns (isHorizontal : Bool) (cols : List (String × SessionColumn))
    (sortedKeys : List String) (st : PositionState) : PositionState :=
  sortedKeys.foldl (positionStep isHorizontal cols) st

/-- Lines 547-557 — place every node not yet positioned in the orphan lane at
`x = -200`, stacked downward. -/
def placeOrphans (nodes : List Node) (positionedIds : List String) (orphanY : Int) :
    List Node :=
  match nodes with
  | [] => []
  | n :: rest =>
    if positionedIds.contains n.id then placeOrphans rest positionedIds orphanY
    else
      let dims := (nodeDimensions n.type).getD (180, 80)
      { n with position := ⟨-200, orphanY⟩ } ::
        placeOrphans rest positionedIds (orphanY + dims.2 + ROW_GAP)

/-- Lines 251-560 — `layoutGraph`. -/
def layoutGraph (nodes : List Node) (edges : List Edge) (options : LayoutOptions)
    (now : Int) : List Node × List Edge :=
  let direction := options.direction.getD "LR"
  let isHorizontal := direction == "LR" || direction == "RL"
  let sessions := sessionsOf nodes
  let actions := actionsOf nodes
  let execs := execsOf nodes
  let crabNode := nodes.find? (fun n => n.type == "crab")
  let rootSessions := (sessions.filter (fun s => isRoot sessions s)).insertionSort rootKeyLe
  let rootMap := initRootMap rootSessions
  let cols0 := (assignColumns sessions rootMap).1
  let actionsBy := actionsBySessionOf actions
  let execsBy := execsBySessionOf execs
  let cols1 := buildItems sessions actionsBy execsBy cols0
  let cols := computeSpawnY sessions actionsBy cols1 now
  let st0 : PositionState :=
    match crabNode with
    | some c =>
      { positionedNodes := [{ c with position := CRAB_OFFSET }]
        positionedIds := [c.id]
        columnRanges := []
        columnOccupancy := [] }
    | none =>
      { positionedNodes := [], positionedIds := [], columnRanges := [], columnOccupancy := [] }
  let sortedKeys := (cols.map (·.1)).insertionSort (sessionKeyLe cols isHorizontal)
  let st := positionColumns isHorizontal cols sortedKeys st0
  let orphanY := (st.columnOccupancy.map (·.2)).foldl max 0 + 100
  (st.positionedNodes ++ placeOrphans nodes st.positionedIds orphanY, edges)

/-! ## Claim C6 — cycle-guarded traversals -/

/-- The session keys not yet in the visited set: the quantity that shrinks at
every recursive call of the two traversals. -/
def unvisitedKeys (sessions : List MonitorSession) (visited : List String) : Finset String :=
  (sessions.map (·.key)).toFinset \ visited.toFinset

theorem unvisited_cons_lt (sessions : List MonitorSession) (visited : List String)
    (key : String) (hmem : key ∈ sessions.map (·.key)) (hnv : key ∉ visited) :
    (unvisitedKeys sessions (key :: visited)).card < (unvisitedKeys sessions visited).card := by
  have hin : key ∈ unvisitedKeys sessions visited := by
    simp [unvisitedKeys, List.mem_toFinset, hmem, hnv]
  have hsub : unvisitedKeys sessions (key :: visited) =
      (unvisitedKeys sessions visited).erase key := by
    ext a
    simp only [unvisitedKeys, List.toFinset_cons, Finset.mem_erase, Finset.mem_sdiff,
      List.mem_toFinset, Finset.mem_insert]
    tauto
  rw [hsub]
  exact Finset.card_erase_lt_of_mem hin

theorem findSession_key_mem {sessions : List MonitorSession} {key : String}
    {s : MonitorSession} (h : findSession sessions key = some s) :
    key ∈ sessions.map (·.key) := by
  unfold findSession at h
  have hmem := List.mem_of_find?_eq_some h
  have hkey := List.find?_some h
  have hk : s.key = key := by simpa using hkey
  subst hk
  exact List.mem_map_of_mem _ hmem

theorem getSessionDepthFuel_isSome (sessions : List MonitorSession) :
    ∀ (fuel : Nat) (key : String) (visited : List String),
      (unvisitedKeys sessions visited).card < fuel →
      (getSessionDepthFuel sessions fuel key visited).isSome := by
  intro fuel
  induction fuel with
  | zero => intro key visited h; omega
  | succ n ih =>
    intro key visited h
    simp only [getSessionDepthFuel]
    by_cases hv : visited.contains key = true
    · rw [if_pos hv]
      rfl
    · rw [if_neg hv]
      have hv' : key ∉ visited := by simpa using hv
      cases hfind : findSession sessions key with
      | none => simp
      | some s =>
        by_cases hsp : spawnedByTruthy s
        · simp only [hsp, if_true]
          have hlt := unvisited_cons_lt sessions visited key (findSession_key_mem hfind) hv'
          have hrec := ih (s.spawnedBy.getD "") (key :: visited) (by omega)
          obtain ⟨v, hval⟩ := Option.isSome_iff_exists.mp hrec
          rw [hval]
          rfl
        · simp [hsp]

theorem findRootIndexFuel_isSome (sessions : List MonitorSession) :
    ∀ (fuel : Nat) (key : String) (visited : List String) (cache : List (String × Nat)),
      (unvisitedKeys sessions visited).card < fuel →
      (findRootIndexFuel sessions fuel cache key visited).isSome := by
  intro fuel
  induction fuel with
  | zero => intro key visited cache h; omega
  | succ n ih =>
    intro key visited cache h
    simp only [findRootIndexFuel]
    by_cases hv : visited.contains key = true
    · rw [if_pos hv]
      rfl
    · rw [if_neg hv]
      have hv' : key ∉ visited := by simpa using hv
      cases hcache : cache.lookup key with
      | some i => simp
      | none =>
        cases hfind : findSession sessions key with
        | none => simp
        | some s =>
          by_cases hsp : spawnedByTruthy s
          · simp only [hsp, if_true]
            have hlt := unvisited_cons_lt sessions visited key (findSession_key_mem hfind) hv'
            have hrec := ih (s.spawnedBy.getD "") (key :: visited) cache (by omega)
            obtain ⟨v, hval⟩ := Option.isSome_iff_exists.mp hrec
            rw [hval]
            rfl
          · simp [hsp]

theorem unvisited_nil_card_lt (sessions : List MonitorSession) :
    (unvisitedKeys sessions []).card < sessions.length + 1 := by
  have h1 : (unvisitedKeys sessions []).card ≤ (sessions.map (·.key)).toFinset.card := by
    apply Finset.card_le_card
    simp [unvisitedKeys]
  have h2 : (sessions.map (·.key)).toFinset.card ≤ (sessions.map (·.key)).length :=
    (sessions.map (·.key)).toFinset_card_le
  simp only [List.length_map] at h2
  omega

/-- C6 counterexample: the working set consisting of the single session
`s1` whose `spawnedBy` chain is the self-cycle `s1 → s1`.  `getSessionDepth`
resolves this cyclic chain to 1, not 0: the visited-set guard returns 0 only
for the innermost revisit, and the outer call adds 1. -/
theorem cycle_depth_cex :
    getSessionDepth [⟨"s1", some "s1", none⟩] "s1" ≠ 0 := by
  decide

/-- C6 amended: both traversals terminate on every working set at the fuel
the embedding uses (one more than the session count), and on cyclic
`spawnedBy` chains `findRootIndex` resolves to root index 0 while
`getSessionDepth` returns the number of sessions walked before the revisit
(1 for the self-cycle, 2 for each member of a 2-cycle) rather than 0. -/
theorem cycle_traversals_terminate :
    (∀ (sessions : List MonitorSession) (key : String),
        (getSessionDepthFuel sessions (sessions.length + 1) key []).isSome)
    ∧ (∀ (sessions : List MonitorSession) (cache : List (String × Nat)) (key : String),
        (findRootIndexFuel sessions (sessions.length + 1) cache key []).isSome)
    ∧ ((findRootIndex [⟨"s1", some "s1", none⟩] [] "s1").1 = 0
        ∧ getSessionDepth [⟨"s1", some "s1", none⟩] "s1" = 1)
    ∧ ((findRootIndex [⟨"s1", some "s2", none⟩, ⟨"s2", some "s1", none⟩] [] "s1").1 = 0
        ∧ (findRootIndex [⟨"s1", some "s2", none⟩, ⟨"s2", some "s1", none⟩] [] "s2").1 = 0
        ∧ getSessionDepth [⟨"s1", some "s2", none⟩, ⟨"s2", some "s1", none⟩] "s1" = 2
        ∧ getSessionDepth [⟨"s1", some "s2", none⟩, ⟨"s2", some "s1", none⟩] "s2" = 2) := by
  refine ⟨?_, ?_, by decide, by decide⟩
  · intro sessions key
    exact getSessionDepthFuel_isSome sessions _ key [] (unvisited_nil_card_lt sessions)
  · intro sessions cache key
    exact findRootIndexFuel_isSome sessions _ key [] cache (unvisited_nil_card_lt sessions)

/-! ## Claim C7 — determinism of `layoutGraph` -/

/-- C7 counterexample: a child session carrying no `lastActivityAt` and no
actions makes `childCreationTime` fall back to `Date.now()`
(line 422), so two calls on identical node/edge/option inputs at ambient
times 0 and 100 position the child at different spawn heights: the parent's
action at timestamp 100 is counted at the later call only. -/
theorem layout_deterministic_cex :
    layoutGraph
        [⟨"session-p", "session", NodeData.session ⟨"p", none, some 100⟩, ⟨0, 0⟩⟩,
         ⟨"session-c", "session", NodeData.session ⟨"c", some "p", none⟩, ⟨0, 0⟩⟩,
         ⟨"action-a1", "action", NodeData.action ⟨"p", 100⟩, ⟨0, 0⟩⟩]
        [] {} 0 ≠
      layoutGraph
        [⟨"session-p", "session", NodeData.session ⟨"p", none, some 100⟩, ⟨0, 0⟩⟩,
         ⟨"session-c", "session", NodeData.session ⟨"c", some "p", none⟩, ⟨0, 0⟩⟩,
         ⟨"action-a1", "action", NodeData.action ⟨"p", 100⟩, ⟨0, 0⟩⟩]
        [] {} 100 := by
  decide

theorem spawnYStep_now (actionsBy : List (String × List (String × MonitorAction)))
    (now₁ now₂ : Int) (cols : List (String × SessionColumn)) (s : MonitorSession)
    (h : spawnedByTruthy s = true →
      ((actionsBy.lookup s.key).getD []) ≠ [] ∨ s.lastActivityAt.isSome = true) :
    spawnYStep actionsBy now₁ cols s = spawnYStep actionsBy now₂ cols s := by
  unfold spawnYStep
  by_cases ht : spawnedByTruthy s = true
  · have hcreate : childCreationTimeOf actionsBy s now₁ = childCreationTimeOf actionsBy s now₂ := by
      unfold childCreationTimeOf
      rcases h ht with hact | hlast
      · cases hls : ((actionsBy.lookup s.key).getD []) with
        | nil => exact absurd hls hact
        | cons a rest => simp
      · cases hhd : ((actionsBy.lookup s.key).getD []).head? with
        | some a => simp
        | none =>
          cases hla : s.lastActivityAt with
          | none => rw [hla] at hlast; simp at hlast
          | some t => simp
    rw [hcreate]
  · have ht' : (!(spawnedByTruthy s)) = true := by simpa using ht
    rw [if_pos ht', if_pos ht']

theorem computeSpawnY_now (sessions : List MonitorSession)
    (actionsBy : List (String × List (String × MonitorAction))) (now₁ now₂ : Int)
    (h : ∀ s ∈ sessions, spawnedByTruthy s = true →
      ((actionsBy.lookup s.key).getD []) ≠ [] ∨ s.lastActivityAt.isSome = true) :
    ∀ cols, computeSpawnY sessions actionsBy cols now₁ =
      computeSpawnY sessions actionsBy cols now₂ := by
  induction sessions with
  | nil => intro cols; rfl
  | cons s rest ih =>
    intro cols
    have hs := h s (List.mem_cons_self s rest)
    have hrest := fun s' hm => h s' (List.mem_cons_of_mem _ hm)
    show List.foldl _ _ (s :: rest) = List.foldl _ _ (s :: rest)
    rw [List.foldl_cons, List.foldl_cons, spawnYStep_now actionsBy now₁ now₂ cols s hs]
    exact ih hrest (spawnYStep actionsBy now₂ cols s)

/-- C7 amended: `layoutGraph` is deterministic — two calls with identical
node/edge inputs and identical options yield identical output — provided
every child session (truthy `spawnedBy`) has an observed activity: at least
one action, or a present `lastActivityAt`.  Without that, the
`childCreationTime` fallback reads the ambient clock and determinism fails
(see the counterexample). -/
theorem layout_deterministic (ns : List Node) (es : List Edge) (opts : LayoutOptions)
    (now₁ now₂ : Int)
    (h : ∀ s ∈ sessionsOf ns, spawnedByTruthy s = true →
      (((actionsBySessionOf (actionsOf ns)).lookup s.key).getD []) ≠ [] ∨
        s.lastActivityAt.isSome = true) :
    layoutGraph ns es opts now₁ = layoutGraph ns es opts now₂ := by
  have hEq := computeSpawnY_now (sessionsOf ns) (actionsBySessionOf (actionsOf ns)) now₁ now₂ h
    (buildItems (sessionsOf ns) (actionsBySessionOf (actionsOf ns))
      (execsBySessionOf (execsOf ns))
      (assignColumns (sessionsOf ns)
        (initRootMap
          (((sessionsOf ns).filter
            (fun s => isRoot (sessionsOf ns) s)).insertionSort rootKeyLe))).1)
  simp only [layoutGraph]
  rw [hEq]

/-- Witness for `layout_deterministic`: the counterexample input repaired by
giving the child a `lastActivityAt`; the two calls at ambient times 0 and
100 agree. -/
theorem layout_deterministic_witness :
    layoutGraph
        [⟨"session-p", "session", NodeData.session ⟨"p", none, some 100⟩, ⟨0, 0⟩⟩,
         ⟨"session-c", "session", NodeData.session ⟨"c", some "p", some 50⟩, ⟨0, 0⟩⟩,
         ⟨"action-a1", "action", NodeData.action ⟨"p", 100⟩, ⟨0, 0⟩⟩]
        [] {} 0 =
      layoutGraph
        [⟨"session-p", "session", NodeData.session ⟨"p", none, some 100⟩, ⟨0, 0⟩⟩,
         ⟨"session-c", "session", NodeData.session ⟨"c", some "p", some 50⟩, ⟨0, 0⟩⟩,
         ⟨"action-a1", "action", NodeData.action ⟨"p", 100⟩, ⟨0, 0⟩⟩]
        [] {} 100 := by
  exact layout_deterministic _ _ _ 0 100 (by decide)

/-! ## Claim C8 — spawn placement of child sessions -/

theorem lookup_mapSet_self {κ α : Type} [BEq κ] [LawfulBEq κ]
    (m : List (κ × α)) (k : κ) (v : α) : (mapSet m k v).lookup k = some v := by
  induction m with
  | nil => simp [mapSet]
  | cons p rest ih =>
    obtain ⟨k', v'⟩ := p
    by_cases h : (k' == k) = true
    · simp [mapSet, h]
    · have hne : (k == k') = false := by
        have hkk : ¬(k = k') := fun e => h (by simp [e])
        simpa using hkk
      simp only [mapSet, h, if_false, List.lookup, hne]
      exact ih

theorem lookup_mapSet_ne {κ α : Type} [BEq κ] [LawfulBEq κ]
    (m : List (κ × α)) (k k₂ : κ) (v : α) (hne : ¬(k₂ = k)) :
    (mapSet m k v).lookup k₂ = m.lookup k₂ := by
  have hb : (k₂ == k) = false := by simpa using hne
  induction m with
  | nil => simp [mapSet, List.lookup, hb]
  | cons p rest ih =>
    obtain ⟨k', v'⟩ := p
    by_cases h : (k' == k) = true
    · have hk' : k' = k := by simpa using h
      subst hk'
      simp [mapSet, List.lookup, hb]
    · simp only [mapSet, h, if_false, List.lookup]
      cases hkk : (k₂ == k') with
      | true => rfl
      | false => exact ih

/-- `spawnYStep` never touches entries other than the processed session's. -/
theorem spawnYStep_lookup_ne (actionsBy : List (String × List (String × MonitorAction)))
    (now : Int) (cols : List (String × SessionColumn)) (s : MonitorSession)
    (k : String) (hne : ¬(k = s.key)) :
    (spawnYStep actionsBy now cols s).lookup k = cols.lookup k := by
  unfold spawnYStep
  by_cases ht : (!(spawnedByTruthy s)) = true
  · rw [if_pos ht]
  · rw [if_neg ht]
    cases hp : cols.lookup (s.spawnedBy.getD "") with
    | none => rfl
    | some parentCol =>
      cases hc : cols.lookup s.key with
      | none => rfl
      | some childCol =>
        exact lookup_mapSet_ne cols s.key k _ hne

/-- `spawnYStep` preserves every entry's `items` (it only rewrites `spawnY`). -/
theorem spawnYStep_items (actionsBy : List (String × List (String × MonitorAction)))
    (now : Int) (cols : List (String × SessionColumn)) (s : MonitorSession) (k : String) :
    ((spawnYStep actionsBy now cols s).lookup k).map (·.items) =
      (cols.lookup k).map (·.items) := by
  by_cases hk : k = s.key
  · subst hk
    unfold spawnYStep
    by_cases ht : (!(spawnedByTruthy s)) = true
    · rw [if_pos ht]
    · rw [if_neg ht]
      cases hp : cols.lookup (s.spawnedBy.getD "") with
      | none => rfl
      | some parentCol =>
        cases hc : cols.lookup s.key with
        | none =>
          show (cols.lookup s.key).map (·.items) = _
          rw [hc]
        | some childCol =>
          rw [lookup_mapSet_self]
          rfl
  · rw [spawnYStep_lookup_ne actionsBy now cols s k hk]

/-- The spawn pass leaves keys outside the processed session list untouched. -/
theorem computeSpawnY_lookup_not_mem (actionsBy : List (String × List (String × MonitorAction)))
    (now : Int) (k : String) :
    ∀ (sessions : List MonitorSession) (cols : List (String × SessionColumn)),
      k ∉ sessions.map (·.key) →
      (computeSpawnY sessions actionsBy cols now).lookup k = cols.lookup k := by
  intro sessions
  induction sessions with
  | nil => intro cols _; rfl
  | cons s rest ih =>
    intro cols hk
    have hk1 : ¬(k = s.key) := fun e => hk (by simp [e])
    have hk2 : k ∉ rest.map (·.key) := fun hm => hk (by simp [hm])
    show (computeSpawnY rest actionsBy (spawnYStep actionsBy now cols s) now).lookup k = _
    rw [ih (spawnYStep actionsBy now cols s) hk2,
      spawnYStep_lookup_ne actionsBy now cols s k hk1]

/-- The spawn pass preserves every entry's `items`. -/
theorem computeSpawnY_items (actionsBy : List (String × List (String × MonitorAction)))
    (now : Int) (k : String) :
    ∀ (sessions : List MonitorSession) (cols : List (String × SessionColumn)),
      ((computeSpawnY sessions actionsBy cols now).lookup k).map (·.items) =
        (cols.lookup k).map (·.items) := by
  intro sessions
  induction sessions with
  | nil => intro cols; rfl
  | cons s rest ih =>
    intro cols
    show (((computeSpawnY rest actionsBy (spawnYStep actionsBy now cols s) now).lookup k).map
      (·.items)) = _
    rw [ih (spawnYStep actionsBy now cols s), spawnYStep_items actionsBy now cols s k]

/-- C8 amended: a child session whose parent has a column entry is assigned
— before collision adjustment — the spawn height
`N × (actionHeight + rowGap) + spawnOffset`, where `N` counts the parent's
`session` timeline item unconditionally plus those action/exec items whose
timestamp is at or before the child's first observed activity (first action
timestamp, else `lastActivityAt`, else the ambient time).  The parent's own
session item is counted even when its timestamp (`lastActivityAt`) is later
than the child's first activity — this is where the original claim fails. -/
theorem spawn_position (actionsBy : List (String × List (String × MonitorAction)))
    (now : Int) (child : MonitorSession) (parentItems : List ColItem)
    (childCol : SessionColumn) :
    ∀ (sessions : List MonitorSession) (cols : List (String × SessionColumn)),
      (sessions.map (·.key)).Nodup → child ∈ sessions → spawnedByTruthy child = true →
      ((cols.lookup (child.spawnedBy.getD "")).map (·.items)) = some parentItems →
      cols.lookup child.key = some childCol →
      (computeSpawnY sessions actionsBy cols now).lookup child.key =
        some { childCol with
          spawnY :=
            (countBeforeSpawn parentItems (childCreationTimeOf actionsBy child now) : Int) *
              (ACTION_DIMS.2 + ROW_GAP) + SPAWN_OFFSET } := by
  intro sessions
  induction sessions with
  | nil => intro cols _ hmem; exact absurd hmem (List.not_mem_nil child)
  | cons s rest ih =>
    intro cols hnodup hmem ht hp hc
    have hnodup' : (rest.map (·.key)).Nodup := by
      simpa using hnodup.of_cons
    have hskey : s.key ∉ rest.map (·.key) := by
      have := hnodup
      simp only [List.map_cons, List.nodup_cons] at this
      exact this.1
    rcases List.mem_cons.mp hmem with hcs | hcr
    · -- the head session is the child: its step writes the spawn height,
      -- and no later session shares its key
      subst hcs
      obtain ⟨pc, hpc, hpcitems⟩ : ∃ pc, cols.lookup (child.spawnedBy.getD "") = some pc ∧
          pc.items = parentItems := by
        cases hlk : cols.lookup (child.spawnedBy.getD "") with
        | none => rw [hlk] at hp; simp at hp
        | some pc =>
          rw [hlk] at hp
          exact ⟨pc, rfl, by simpa using hp⟩
      have hstep : spawnYStep actionsBy now cols child =
          mapSet cols child.key
            { childCol with
              spawnY :=
                (countBeforeSpawn parentItems (childCreationTimeOf actionsBy child now) : Int) *
                  (ACTION_DIMS.2 + ROW_GAP) + SPAWN_OFFSET } := by
        unfold spawnYStep
        have ht' : (!(spawnedByTruthy child)) = false := by simp [ht]
        rw [ht']
        simp only [Bool.false_eq_true, if_false, hpc, hc, hpcitems]
      show (computeSpawnY rest actionsBy (spawnYStep actionsBy now cols child) now).lookup
          child.key = _
      rw [computeSpawnY_lookup_not_mem actionsBy now child.key rest _ hskey, hstep,
        lookup_mapSet_self]
    · -- the head session has a different key; its step preserves both the
      -- child's entry and the parent's items
      have hkne : ¬(child.key = s.key) := by
        intro e
        exact hskey (e ▸ List.mem_map_of_mem (·.key) hcr)
      have hp1 : (((spawnYStep actionsBy now cols s).lookup
          (child.spawnedBy.getD "")).map (·.items)) = some parentItems := by
        rw [spawnYStep_items actionsBy now cols s, hp]
      have hc1 : (spawnYStep actionsBy now cols s).lookup child.key = some childCol := by
        rw [spawnYStep_lookup_ne actionsBy now cols s child.key hkne, hc]
      exact ih (spawnYStep actionsBy now cols s) hnodup' hcr ht hp1 hc1

/-- Modelled from the claim's words, for comparison with the code: `N` is
"the number of the parent's timeline items that occurred at or before the
child's first observed activity", i.e. the items whose timestamp is at most
the child's first-activity instant, with no special case for the parent's
own session item. -/
def claimedSpawnY (parentItems : List ColItem) (childFirstActivity : Int) : Int :=
  ((parentItems.filter (fun it => it.timestamp ≤ childFirstActivity)).length : Int) *
    (ACTION_DIMS.2 + ROW_GAP) + SPAWN_OFFSET

/-- C8 counterexample: parent `p` with `lastActivityAt = 100` and no actions,
child `c` spawned by `p` with first observed activity 50.  The parent's only
timeline item (its session item, timestamp 100) did not occur at or before
50, so the claim places the child at `0 × 180 + 60 = 60`; the code counts
the session item unconditionally and computes `1 × 180 + 60 = 240`. -/
theorem spawn_position_cex :
    ((computeSpawnY (sessionsOf
          [⟨"session-p", "session", NodeData.session ⟨"p", none, some 100⟩, ⟨0, 0⟩⟩,
           ⟨"session-c", "session", NodeData.session ⟨"c", some "p", some 50⟩, ⟨0, 0⟩⟩])
        (actionsBySessionOf (actionsOf
          [⟨"session-p", "session", NodeData.session ⟨"p", none, some 100⟩, ⟨0, 0⟩⟩,
           ⟨"session-c", "session", NodeData.session ⟨"c", some "p", some 50⟩, ⟨0, 0⟩⟩]))
        (buildItems (sessionsOf
            [⟨"session-p", "session", NodeData.session ⟨"p", none, some 100⟩, ⟨0, 0⟩⟩,
             ⟨"session-c", "session", NodeData.session ⟨"c", some "p", some 50⟩, ⟨0, 0⟩⟩])
          (actionsBySessionOf (actionsOf
            [⟨"session-p", "session", NodeData.session ⟨"p", none, some 100⟩, ⟨0, 0⟩⟩,
             ⟨"session-c", "session", NodeData.session ⟨"c", some "p", some 50⟩, ⟨0, 0⟩⟩]))
          (execsBySessionOf (execsOf
            [⟨"session-p", "session", NodeData.session ⟨"p", none, some 100⟩, ⟨0, 0⟩⟩,
             ⟨"session-c", "session", NodeData.session ⟨"c", some "p", some 50⟩, ⟨0, 0⟩⟩]))
          (assignColumns (sessionsOf
              [⟨"session-p", "session", NodeData.session ⟨"p", none, some 100⟩, ⟨0, 0⟩⟩,
               ⟨"session-c", "session", NodeData.session ⟨"c", some "p", some 50⟩, ⟨0, 0⟩⟩])
            (initRootMap (((sessionsOf
                [⟨"session-p", "session", NodeData.session ⟨"p", none, some 100⟩, ⟨0, 0⟩⟩,
                 ⟨"session-c", "session", NodeData.session ⟨"c", some "p", some 50⟩, ⟨0, 0⟩⟩]).filter
              (fun s => isRoot (sessionsOf
                [⟨"session-p", "session", NodeData.session ⟨"p", none, some 100⟩, ⟨0, 0⟩⟩,
                 ⟨"session-c", "session", NodeData.session ⟨"c", some "p", some 50⟩, ⟨0, 0⟩⟩]) s)).insertionSort
              rootKeyLe))).1) 0).lookup "c").map (·.spawnY) =
      some 240 ∧
    claimedSpawnY [sessionItem ⟨"p", none, some 100⟩] 50 = 60 ∧ (240 : Int) ≠ 60 := by
  refine ⟨by decide, by decide, by decide⟩

/-- Witness for `spawn_position` at the claim's own example: the parent's
timeline holds its session item (timestamp 10) and actions at 20, 30 and 50;
the child's first observed activity is its action at 35, so 3 items are
counted and the child sits at `3 × (100 + 80) + 60 = 600`. -/
theorem spawn_position_witness :
    (computeSpawnY
        [⟨"p", none, some 10⟩, ⟨"c", some "p", some 99⟩]
        (actionsBySessionOf
          [("a1", ⟨"p", 20⟩), ("a2", ⟨"p", 30⟩), ("a3", ⟨"p", 50⟩), ("c1", ⟨"c", 35⟩)])
        [("p", ⟨"p", 0, 0, 200,
            [sessionItem ⟨"p", none, some 10⟩, actionItem ("a1", ⟨"p", 20⟩),
             actionItem ("a2", ⟨"p", 30⟩), actionItem ("a3", ⟨"p", 50⟩)]⟩),
         ("c", ⟨"c", 1, 0, 0,
            [sessionItem ⟨"c", some "p", some 99⟩, actionItem ("c1", ⟨"c", 35⟩)]⟩)]
        0).lookup "c" =
      some ⟨"c", 1, 0, 600,
        [sessionItem ⟨"c", some "p", some 99⟩, actionItem ("c1", ⟨"c", 35⟩)]⟩ := by
  exact (spawn_position
    (actionsBySessionOf
      [("a1", ⟨"p", 20⟩), ("a2", ⟨"p", 30⟩), ("a3", ⟨"p", 50⟩), ("c1", ⟨"c", 35⟩)])
    0 ⟨"c", some "p", some 99⟩
    [sessionItem ⟨"p", none, some 10⟩, actionItem ("a1", ⟨"p", 20⟩),
     actionItem ("a2", ⟨"p", 30⟩), actionItem ("a3", ⟨"p", 50⟩)]
    ⟨"c", 1, 0, 0, [sessionItem ⟨"c", some "p", some 99⟩, actionItem ("c1", ⟨"c", 35⟩)]⟩
    [⟨"p", none, some 10⟩, ⟨"c", some "p", some 99⟩]
    [("p", ⟨"p", 0, 0, 200,
        [sessionItem ⟨"p", none, some 10⟩, actionItem ("a1", ⟨"p", 20⟩),
         actionItem ("a2", ⟨"p", 30⟩), actionItem ("a3", ⟨"p", 50⟩)]⟩),
     ("c", ⟨"c", 1, 0, 0,
        [sessionItem ⟨"c", some "p", some 99⟩, actionItem ("c1", ⟨"c", 35⟩)]⟩)]
    (by decide) (by decide) (by decide) (by decide) (by decide)).trans (by decide)

/-! ## Claim C10 — node preservation and the edge frame

The counterexample needs only concrete evaluation; the amended theorem
accounts for every node id through the phases of `layoutGraph`, which takes
the association-list lemmas below. -/

theorem lookup_eq_none_of_not_mem_fst {κ α : Type} [BEq κ] [LawfulBEq κ]
    {m : List (κ × α)} {k : κ} (h : k ∉ m.map Prod.fst) : m.lookup k = none := by
  induction m with
  | nil => rfl
  | cons p rest ih =>
    obtain ⟨k', v'⟩ := p
    have h1 : ¬(k = k') := fun e => h (by simp [e])
    have h2 : k ∉ rest.map Prod.fst := fun hm => h (by simp [hm])
    have hb : (k == k') = false := by simpa using h1
    simp only [List.lookup, hb]
    exact ih h2

theorem mem_fst_of_lookup_some {κ α : Type} [BEq κ] [LawfulBEq κ]
    {m : List (κ × α)} {k : κ} {v : α} (h : m.lookup k = some v) :
    k ∈ m.map Prod.fst := by
  by_contra hk
  rw [lookup_eq_none_of_not_mem_fst hk] at h
  exact Option.noConfusion h

theorem mem_of_lookup_some {κ α : Type} [BEq κ] [LawfulBEq κ]
    {m : List (κ × α)} {k : κ} {v : α} (h : m.lookup k = some v) : (k, v) ∈ m := by
  induction m with
  | nil => exact Option.noConfusion h
  | cons p rest ih =>
    obtain ⟨k', v'⟩ := p
    by_cases hb : (k == k') = true
    · have hk : k = k' := by simpa using hb
      subst hk
      simp only [List.lookup, hb] at h
      have hv : v' = v := by simpa using h
      simp [hv]
    · have hb' : (k == k') = false := by simpa using hb
      simp only [List.lookup, hb'] at h
      exact List.mem_cons_of_mem _ (ih h)

theorem lookup_isSome_of_mem_fst {κ α : Type} [BEq κ] [LawfulBEq κ]
    {m : List (κ × α)} {k : κ} (h : k ∈ m.map Prod.fst) : (m.lookup k).isSome := by
  induction m with
  | nil => simp at h
  | cons p rest ih =>
    obtain ⟨k', v'⟩ := p
    by_cases hb : (k == k') = true
    · simp [List.lookup, hb]
    · have hb' : (k == k') = false := by simpa using hb
      have hk : ¬(k = k') := by simpa using hb'
      have h2 : k ∈ rest.map Prod.fst := by
        rw [List.map_cons] at h
        rcases List.mem_cons.mp h with h' | h'
        · exact absurd h' hk
        · exact h'
      simp only [List.lookup, hb']
      exact ih h2

theorem lookup_map_value {α β : Type} (f : α → β) (m : List (String × α)) (k : String) :
    (m.map (fun p => (p.1, f p.2))).lookup k = (m.lookup k).map f := by
  induction m with
  | nil => rfl
  | cons p rest ih =>
    obtain ⟨k', v'⟩ := p
    simp only [List.map_cons, List.lookup]
    cases hb : (k == k') with
    | true => rfl
    | false => exact ih

theorem mapSet_fst_of_mem {κ α : Type} [BEq κ] [LawfulBEq κ]
    (m : List (κ × α)) (k : κ) (v : α) (h : k ∈ m.map Prod.fst) :
    (mapSet m k v).map Prod.fst = m.map Prod.fst := by
  induction m with
  | nil => simp at h
  | cons p rest ih =>
    obtain ⟨k', v'⟩ := p
    by_cases hb : (k' == k) = true
    · have hk : k' = k := by simpa using hb
      subst hk
      simp [mapSet]
    · have hk : ¬(k' = k) := by simpa using hb
      have hb' : (k' == k) = false := by simpa using hk
      have h2 : k ∈ rest.map Prod.fst := by
        rw [List.map_cons] at h
        rcases List.mem_cons.mp h with h' | h'
        · exact absurd h'.symm hk
        · exact h'
      simp only [mapSet, hb', Bool.false_eq_true, if_false, List.map_cons]
      rw [ih h2]

theorem mapSet_fst_of_not_mem {κ α : Type} [BEq κ] [LawfulBEq κ]
    (m : List (κ × α)) (k : κ) (v : α) (h : k ∉ m.map Prod.fst) :
    (mapSet m k v).map Prod.fst = m.map Prod.fst ++ [k] := by
  induction m with
  | nil => simp [mapSet]
  | cons p rest ih =>
    obtain ⟨k', v'⟩ := p
    have hk : ¬(k' = k) := fun e => h (by simp [e])
    have h2 : k ∉ rest.map Prod.fst := fun hm => h (by simp [hm])
    have hb : (k' == k) = false := by simpa using hk
    simp only [mapSet, hb, Bool.false_eq_true, if_false, List.map_cons]
    rw [ih h2, List.cons_append]

theorem groupPush_lookup_self {α : Type} (m : List (String × List α)) (k : String) (a : α) :
    ((groupPush m k a).lookup k).getD [] = ((m.lookup k).getD []) ++ [a] := by
  unfold groupPush
  cases hl : m.lookup k with
  | none => rw [lookup_mapSet_self]; simp
  | some l => rw [lookup_mapSet_self]; simp

theorem groupPush_lookup_ne {α : Type} (m : List (String × List α)) (k k₂ : String)
    (a : α) (h : ¬(k₂ = k)) : (groupPush m k a).lookup k₂ = m.lookup k₂ := by
  unfold groupPush
  cases hl : m.lookup k with
  | none => exact lookup_mapSet_ne m k k₂ _ h
  | some l => exact lookup_mapSet_ne m k k₂ _ h

/-- The grouping fold collects, under each nonempty key, exactly the elements
with that key, in arrival order. -/
theorem groupByKey_lookup {α : Type} (keyOf : α → String) (k : String) (hk : ¬(k = "")) :
    ∀ (xs : List α) (m : List (String × List α)),
      ((List.foldl (fun (m : List (String × List α)) a =>
            if keyOf a == "" then m else groupPush m (keyOf a) a) m xs).lookup k).getD [] =
        ((m.lookup k).getD []) ++ (xs.filter (fun a => keyOf a == k)) := by
  intro xs
  induction xs with
  | nil => intro m; simp
  | cons a rest ih =>
    intro m
    simp only [List.foldl_cons, List.filter_cons]
    by_cases he : (keyOf a == "") = true
    · have h0 : keyOf a = "" := by simpa using he
      have henk : ¬((keyOf a == k) = true) := by
        rw [h0]
        simp
        exact fun e => hk e.symm
      rw [if_pos he, ih m, if_neg henk]
    · rw [if_neg he]
      by_cases hak : (keyOf a == k) = true
      · have hak' : keyOf a = k := by simpa using hak
        rw [ih (groupPush m (keyOf a) a), if_pos hak, hak', groupPush_lookup_self]
        simp
      · have hne : ¬(k = keyOf a) := fun e => hak (by simp [e])
        rw [ih (groupPush m (keyOf a) a), if_neg hak,
          groupPush_lookup_ne m (keyOf a) k a hne]

theorem groupByKey_lookup_empty {α : Type} (keyOf : α → String) :
    ∀ (xs : List α) (m : List (String × List α)), m.lookup "" = none →
      (List.foldl (fun (m : List (String × List α)) a =>
          if keyOf a == "" then m else groupPush m (keyOf a) a) m xs).lookup "" = none := by
  intro xs
  induction xs with
  | nil => intro m h; exact h
  | cons a rest ih =>
    intro m h
    simp only [List.foldl_cons]
    by_cases he : (keyOf a == "") = true
    · rw [if_pos he]
      exact ih m h
    · rw [if_neg he]
      refine ih (groupPush m (keyOf a) a) ?_
      have hne : ¬("" = keyOf a) := by
        intro e
        exact he (by simp [← e])
      rw [groupPush_lookup_ne m (keyOf a) "" a hne, h]

theorem mem_mapSet {κ α : Type} [BEq κ] [LawfulBEq κ]
    (m : List (κ × α)) (k : κ) (v : α) :
    ∀ x ∈ mapSet m k v, x = (k, v) ∨ x ∈ m := by
  induction m with
  | nil => intro x hx; simpa [mapSet] using hx
  | cons p rest ih =>
    obtain ⟨k', v'⟩ := p
    intro x hx
    by_cases hb : (k' == k) = true
    · simp only [mapSet, hb, if_true] at hx
      rcases List.mem_cons.mp hx with h | h
      · exact Or.inl h
      · exact Or.inr (List.mem_cons_of_mem _ h)
    · have hb' : (k' == k) = false := by simpa using hb
      simp only [mapSet, hb', Bool.false_eq_true, if_false] at hx
      rcases List.mem_cons.mp hx with h | h
      · exact Or.inr (by simp [h])
      · rcases ih x h with h' | h'
        · exact Or.inl h'
        · exact Or.inr (List.mem_cons_of_mem _ h')

/-- The spawn pass does not change the key list of the column map. -/
theorem spawnYStep_fst (actionsBy : List (String × List (String × MonitorAction)))
    (now : Int) (cols : List (String × SessionColumn)) (s : MonitorSession) :
    (spawnYStep actionsBy now cols s).map Prod.fst = cols.map Prod.fst := by
  unfold spawnYStep
  by_cases ht : (!(spawnedByTruthy s)) = true
  · rw [if_pos ht]
  · rw [if_neg ht]
    cases hp : cols.lookup (s.spawnedBy.getD "") with
    | none => rfl
    | some pc =>
      cases hc : cols.lookup s.key with
      | none => rfl
      | some cc => exact mapSet_fst_of_mem cols s.key _ (mem_fst_of_lookup_some hc)

theorem computeSpawnY_fst (actionsBy : List (String × List (String × MonitorAction)))
    (now : Int) :
    ∀ (sessions : List MonitorSession) (cols : List (String × SessionColumn)),
      (computeSpawnY sessions actionsBy cols now).map Prod.fst = cols.map Prod.fst := by
  intro sessions
  induction sessions with
  | nil => intro cols; rfl
  | cons s rest ih =>
    intro cols
    show (computeSpawnY rest actionsBy (spawnYStep actionsBy now cols s) now).map Prod.fst = _
    rw [ih (spawnYStep actionsBy now cols s), spawnYStep_fst]

/-- The item-building pass does not change the key list either. -/
theorem buildItemsStep_fst (actionsBy : List (String × List (String × MonitorAction)))
    (execsBy : List (String × List (String × MonitorExecProcess)))
    (cols : List (String × SessionColumn)) (s : MonitorSession) :
    (buildItemsStep actionsBy execsBy cols s).map Prod.fst = cols.map Prod.fst := by
  unfold buildItemsStep
  cases hc : cols.lookup s.key with
  | none => rfl
  | some col => exact mapSet_fst_of_mem cols s.key _ (mem_fst_of_lookup_some hc)

theorem buildItems_fst (actionsBy : List (String × List (String × MonitorAction)))
    (execsBy : List (String × List (String × MonitorExecProcess))) :
    ∀ (sessions : List MonitorSession) (cols : List (String × SessionColumn)),
      (buildItems sessions actionsBy execsBy cols).map Prod.fst = cols.map Prod.fst := by
  intro sessions
  induction sessions with
  | nil => intro cols; rfl
  | cons s rest ih =>
    intro cols
    show (buildItems rest actionsBy execsBy (buildItemsStep actionsBy execsBy cols s)).map
      Prod.fst = _
    rw [ih (buildItemsStep actionsBy execsBy cols s), buildItemsStep_fst]

theorem buildItemsStep_lookup_ne (actionsBy : List (String × List (String × MonitorAction)))
    (execsBy : List (String × List (String × MonitorExecProcess)))
    (cols : List (String × SessionColumn)) (s : MonitorSession) (k : String)
    (h : ¬(k = s.key)) :
    (buildItemsStep actionsBy execsBy cols s).lookup k = cols.lookup k := by
  unfold buildItemsStep
  cases hc : cols.lookup s.key with
  | none => rfl
  | some col => exact lookup_mapSet_ne cols s.key k _ h

theorem buildItems_lookup_not_mem (actionsBy : List (String × List (String × MonitorAction)))
    (execsBy : List (String × List (String × MonitorExecProcess))) (k : String) :
    ∀ (sessions : List MonitorSession) (cols : List (String × SessionColumn)),
      k ∉ sessions.map (·.key) →
      (buildItems sessions actionsBy execsBy cols).lookup k = cols.lookup k := by
  intro sessions
  induction sessions with
  | nil => intro cols _; rfl
  | cons s rest ih =>
    intro cols hk
    have hk1 : ¬(k = s.key) := fun e => hk (by simp [e])
    have hk2 : k ∉ rest.map (·.key) := fun hm => hk (by simp [hm])
    show (buildItems rest actionsBy execsBy (buildItemsStep actionsBy execsBy cols s)).lookup
      k = _
    rw [ih _ hk2, buildItemsStep_lookup_ne _ _ cols s k hk1]

/-- The item list built for the unique session of a given key. -/
theorem buildItems_lookup (actionsBy : List (String × List (String × MonitorAction)))
    (execsBy : List (String × List (String × MonitorExecProcess)))
    (s : MonitorSession) (col0 : SessionColumn) :
    ∀ (sessions : List MonitorSession) (cols : List (String × SessionColumn)),
      (sessions.map (·.key)).Nodup → s ∈ sessions → cols.lookup s.key = some col0 →
      (buildItems sessions actionsBy execsBy cols).lookup s.key =
        some { col0 with
          items :=
            (col0.items ++ [sessionItem s]
              ++ ((actionsBy.lookup s.key).getD []).map actionItem
              ++ ((execsBy.lookup s.key).getD []).map execItem).insertionSort itemLe } := by
  intro sessions
  induction sessions with
  | nil => intro cols _ hmem; exact absurd hmem (List.not_mem_nil s)
  | cons s' rest ih =>
    intro cols hnodup hmem hc
    have hnodup' : (rest.map (·.key)).Nodup := by simpa using hnodup.of_cons
    have hskey : s'.key ∉ rest.map (·.key) := by
      simp only [List.map_cons, List.nodup_cons] at hnodup
      exact hnodup.1
    rcases List.mem_cons.mp hmem with hcs | hcr
    · subst hcs
      have hstep : buildItemsStep actionsBy execsBy cols s =
          mapSet cols s.key
            { col0 with
              items :=
                (col0.items ++ [sessionItem s]
                  ++ ((actionsBy.lookup s.key).getD []).map actionItem
                  ++ ((execsBy.lookup s.key).getD []).map execItem).insertionSort itemLe } := by
        unfold buildItemsStep
        rw [hc]
      show (buildItems rest actionsBy execsBy (buildItemsStep actionsBy execsBy cols s)).lookup
        s.key = _
      rw [buildItems_lookup_not_mem _ _ s.key rest _ hskey, hstep, lookup_mapSet_self]
    · have hkne : ¬(s.key = s'.key) := by
        intro e
        exact hskey (e ▸ List.mem_map_of_mem (·.key) hcr)
      have hc1 : (buildItemsStep actionsBy execsBy cols s').lookup s.key = some col0 := by
        rw [buildItemsStep_lookup_ne _ _ cols s' s.key hkne, hc]
      exact ih (buildItemsStep actionsBy execsBy cols s') hnodup' hcr hc1

/-- Key list produced by the column-assignment pass. -/
theorem assignColumns_fold_fst (S : List MonitorSession) :
    ∀ (T : List MonitorSession) (m : List (String × SessionColumn))
      (cache : List (String × Nat)),
      (∀ s ∈ T, s.key ∉ m.map Prod.fst) → (T.map (·.key)).Nodup →
      (T.foldl (assignStep S) (m, cache)).1.map Prod.fst = m.map Prod.fst ++ T.map (·.key) := by
  intro T
  induction T with
  | nil => intro m cache _ _; simp
  | cons s rest ih =>
    intro m cache hnotin hnodup
    have hs : s.key ∉ m.map Prod.fst := hnotin s (List.mem_cons_self s rest)
    have hskey : s.key ∉ rest.map (·.key) := by
      simp only [List.map_cons, List.nodup_cons] at hnodup
      exact hnodup.1
    have hnodup' : (rest.map (·.key)).Nodup := by simpa using hnodup.of_cons
    have hfst : (assignStep S (m, cache) s).1.map Prod.fst = m.map Prod.fst ++ [s.key] := by
      unfold assignStep
      exact mapSet_fst_of_not_mem m s.key _ hs
    have hnotin' : ∀ s' ∈ rest, s'.key ∉ (assignStep S (m, cache) s).1.map Prod.fst := by
      intro s' hs' hmem
      rw [hfst] at hmem
      rcases List.mem_append.mp hmem with h | h
      · exact hnotin s' (List.mem_cons_of_mem _ hs') h
      · have : s'.key = s.key := by simpa using h
        exact hskey (this ▸ List.mem_map_of_mem (·.key) hs')
    show (rest.foldl (assignStep S) (assignStep S (m, cache) s)).1.map Prod.fst = _
    have hpair : assignStep S (m, cache) s =
        ((assignStep S (m, cache) s).1, (assignStep S (m, cache) s).2) := rfl
    rw [hpair, ih (assignStep S (m, cache) s).1 (assignStep S (m, cache) s).2 hnotin' hnodup',
      hfst]
    simp

theorem assignColumns_fst (S : List MonitorSession) (rm : List (String × Nat))
    (h : (S.map (·.key)).Nodup) :
    (assignColumns S rm).1.map Prod.fst = S.map (·.key) := by
  unfold assignColumns
  rw [assignColumns_fold_fst S S [] rm (by simp) h]
  simp

/-- Every column the assignment pass produces has an empty item list. -/
theorem assignColumns_items_nil (S : List MonitorSession) :
    ∀ (T : List MonitorSession) (m : List (String × SessionColumn))
      (cache : List (String × Nat)),
      (∀ p ∈ m, p.2.items = []) →
      ∀ p ∈ (T.foldl (assignStep S) (m, cache)).1, p.2.items = [] := by
  intro T
  induction T with
  | nil => intro m cache h; exact h
  | cons s rest ih =>
    intro m cache h
    have hstep : ∀ p ∈ (assignStep S (m, cache) s).1, p.2.items = [] := by
      intro p hp
      rcases mem_mapSet m s.key _ p hp with h' | h'
      · rw [h']
      · exact h p h'
    have hpair : assignStep S (m, cache) s =
        ((assignStep S (m, cache) s).1, (assignStep S (m, cache) s).2) := rfl
    show ∀ p ∈ (rest.foldl (assignStep S) (assignStep S (m, cache) s)).1, p.2.items = []
    rw [hpair]
    exact ih (assignStep S (m, cache) s).1 (assignStep S (m, cache) s).2 hstep

/-- For the unique session of a key, the assignment pass yields an entry with
an empty item list. -/
theorem assignColumns_lookup (S : List MonitorSession) (rm : List (String × Nat))
    (h : (S.map (·.key)).Nodup) (s : MonitorSession) (hmem : s ∈ S) :
    ∃ c, (assignColumns S rm).1.lookup s.key = some c ∧ c.items = [] := by
  have hfstm : s.key ∈ (assignColumns S rm).1.map Prod.fst := by
    rw [assignColumns_fst S rm h]
    exact List.mem_map_of_mem (·.key) hmem
  obtain ⟨c, hc⟩ := Option.isSome_iff_exists.mp (lookup_isSome_of_mem_fst hfstm)
  refine ⟨c, hc, ?_⟩
  have hin := mem_of_lookup_some hc
  have := assignColumns_items_nil S S [] rm (by simp) (s.key, c) (by
    unfold assignColumns at hin
    exact hin)
  exact this

/-- The grouped-and-sorted map holds, under each nonempty key, a permutation
of the elements with that key; the empty key never appears. -/
theorem groupByKey_lookup_getD {α : Type} (keyOf : α → String) (k : String)
    (hk : ¬(k = "")) (xs : List α) :
    ((groupByKey keyOf xs).lookup k).getD [] = xs.filter (fun a => keyOf a == k) := by
  unfold groupByKey
  simpa using groupByKey_lookup keyOf k hk xs []

theorem groupByKey_lookup_none {α : Type} (keyOf : α → String) (xs : List α) :
    (groupByKey keyOf xs).lookup "" = none := by
  unfold groupByKey
  exact groupByKey_lookup_empty keyOf xs [] rfl

theorem groupSorted_lookup_perm {α : Type} (keyOf : α → String) (r : α → α → Prop)
    [DecidableRel r] (xs : List α) (k : String) (hk : ¬(k = "")) :
    List.Perm
      ((((groupByKey keyOf xs).map (fun p => (p.1, p.2.insertionSort r))).lookup k).getD [])
      (xs.filter (fun a => keyOf a == k)) := by
  rw [lookup_map_value]
  have hbase := groupByKey_lookup_getD keyOf k hk xs
  cases hG : (groupByKey keyOf xs).lookup k with
  | none =>
    rw [hG] at hbase
    simp only [Option.getD_none] at hbase
    simp [← hbase]
  | some l =>
    rw [hG] at hbase
    simp only [Option.getD_some] at hbase
    simpa [← hbase] using List.perm_insertionSort r l

theorem groupSorted_lookup_none {α : Type} (keyOf : α → String) (r : α → α → Prop)
    [DecidableRel r] (xs : List α) :
    ((groupByKey keyOf xs).map (fun p => (p.1, p.2.insertionSort r))).lookup "" = none := by
  rw [lookup_map_value, groupByKey_lookup_none]
  rfl

theorem placeItems_ids (columnX : Int) :
    ∀ (items : List ColItem) (y : Int),
      (placeItems columnX items y).1.map (·.id) = items.map (·.nodeId) := by
  intro items
  induction items with
  | nil => intro y; rfl
  | cons it rest ih =>
    intro y
    simp only [placeItems, List.map_cons]
    rw [ih]

/-- The positioning fold appends, for every sorted key, exactly the node ids
of that column's items, to both the node list and the positioned-id set. -/
theorem positionColumns_acc (isHorizontal : Bool) (cols : List (String × SessionColumn)) :
    ∀ (keys : List String) (st : PositionState),
      (positionColumns isHorizontal cols keys st).positionedNodes.map (·.id) =
        st.positionedNodes.map (·.id) ++
          (keys.map (fun k =>
            ((cols.lookup k).getD defaultColumn).items.map (·.nodeId))).flatten ∧
      (positionColumns isHorizontal cols keys st).positionedIds =
        st.positionedIds ++
          (keys.map (fun k =>
            ((cols.lookup k).getD defaultColumn).items.map (·.nodeId))).flatten := by
  intro keys
  induction keys with
  | nil => intro st; simp [positionColumns]
  | cons k rest ih =>
    intro st
    have hnodes : (positionStep isHorizontal cols st k).positionedNodes.map (·.id) =
        st.positionedNodes.map (·.id) ++
          ((cols.lookup k).getD defaultColumn).items.map (·.nodeId) := by
      simp only [positionStep, List.map_append]
      rw [placeItems_ids]
    have hids : (positionStep isHorizontal cols st k).positionedIds =
        st.positionedIds ++ ((cols.lookup k).getD defaultColumn).items.map (·.nodeId) := rfl
    obtain ⟨h1, h2⟩ := ih (positionStep isHorizontal cols st k)
    constructor
    · show (positionColumns isHorizontal cols rest (positionStep isHorizontal cols st k)).positionedNodes.map
        (·.id) = _
      rw [h1, hnodes]
      simp [List.append_assoc]
    · show (positionColumns isHorizontal cols rest (positionStep isHorizontal cols st k)).positionedIds = _
      rw [h2, hids]
      simp [List.append_assoc]

/-- The orphan pass keeps exactly the nodes whose id was not positioned, in
order, with their ids unchanged. -/
theorem placeOrphans_ids (P : List String) :
    ∀ (nodes : List Node) (y : Int),
      (placeOrphans nodes P y).map (·.id) =
        (nodes.filter (fun n => !(P.contains n.id))).map (·.id) := by
  intro nodes
  induction nodes with
  | nil => intro y; rfl
  | cons n rest ih =>
    intro y
    rw [placeOrphans]
    by_cases hc : P.contains n.id = true
    · rw [if_pos hc]
      have hm : n.id ∈ P := List.elem_iff.mp hc
      rw [ih]
      simp [List.filter_cons, hm]
    · rw [if_neg hc]
      have hc' : P.contains n.id = false := by simpa using hc
      simp only [List.map_cons, List.filter_cons, hc', Bool.not_false, if_pos]
      rw [ih]

/-- Disjoint Boolean tests split a filter into a permutation of two
filters. -/
theorem filter_or_disjoint_perm {α : Type} (p q : α → Bool) :
    ∀ (l : List α), (∀ x ∈ l, ¬(p x = true ∧ q x = true)) →
      List.Perm (l.filter p ++ l.filter q) (l.filter (fun x => p x || q x)) := by
  intro l
  induction l with
  | nil => intro _; simp
  | cons x rest ih =>
    intro h
    have hx := h x (List.mem_cons_self x rest)
    have hrest := fun x' hm => h x' (List.mem_cons_of_mem _ hm)
    simp only [List.filter_cons]
    by_cases hp : p x = true
    · have hq : q x = false := by
        cases hq : q x with
        | true => exact absurd ⟨hp, hq⟩ hx
        | false => rfl
      rw [hp, hq]
      simp only [Bool.true_or, if_pos, Bool.false_eq_true, if_false, List.cons_append]
      exact (ih hrest).cons x
    · have hp' : p x = false := by simpa using hp
      rw [hp']
      by_cases hq : q x = true
      · rw [hq]
        simp only [Bool.false_or, if_pos, Bool.false_eq_true, if_false]
        exact (List.perm_middle).trans ((ih hrest).cons x)
      · have hq' : q x = false := by simpa using hq
        rw [hq']
        simpa using ih hrest

/-- Pointwise permutations of the blocks permute the flattened list. -/
theorem flatten_map_perm {α β : Type} (f g : α → List β) :
    ∀ (l : List α), (∀ x ∈ l, List.Perm (f x) (g x)) →
      List.Perm (l.map f).flatten (l.map g).flatten := by
  intro l
  induction l with
  | nil => intro _; simp
  | cons x rest ih =>
    intro h
    simp only [List.map_cons, List.flatten_cons]
    exact (h x (List.mem_cons_self x rest)).append
      (ih (fun x' hm => h x' (List.mem_cons_of_mem _ hm)))

/-- Flattening blocks of the shape `head :: (left ++ right)` splits into the
heads, the left parts and the right parts. -/
theorem flatten_map_split {α β : Type} [DecidableEq β] (s : α → β) (f g : α → List β) :
    ∀ (l : List α),
      List.Perm ((l.map (fun x => s x :: (f x ++ g x))).flatten)
        (l.map s ++ ((l.map f).flatten ++ (l.map g).flatten)) := by
  intro l
  induction l with
  | nil => simp
  | cons x rest ih =>
    simp only [List.map_cons, List.flatten_cons]
    refine List.Perm.trans (List.Perm.append_left _ ih) ?_
    apply List.perm_iff_count.mpr
    intro b
    simp only [List.count_append, List.count_cons]
    omega

/-- A Nodup positioned-id list drawn from a Nodup universe, followed by the
filtered-out remainder, is a permutation of the universe. -/
theorem perm_positioned_filter {α : Type} [DecidableEq α] [BEq α] [LawfulBEq α]
    (P I : List α) (hI : I.Nodup) (hP : P.Nodup) (hsub : ∀ x ∈ P, x ∈ I) :
    List.Perm (P ++ I.filter (fun x => !(P.contains x))) I := by
  have h1 : List.Perm (I.filter (fun x => P.contains x)) P := by
    refine (List.perm_ext_iff_of_nodup (hI.filter _) hP).mpr ?_
    intro a
    simp only [List.mem_filter]
    constructor
    · intro ⟨_, hc⟩
      exact List.elem_iff.mp hc
    · intro hmem
      exact ⟨hsub a hmem, List.elem_iff.mpr hmem⟩
  exact (List.Perm.append_right _ h1.symm).trans (List.filter_append_perm _ I)

/-- Two id lists drawn from nodes of different types are disjoint when the
input ids are pairwise distinct. -/
theorem disjoint_ids_lists (ns : List Node) (hids : (ns.map (·.id)).Nodup)
    (xs ys : List String) (t₁ t₂ : String) (ht : ¬(t₁ = t₂))
    (h1 : ∀ x ∈ xs, ∃ n ∈ ns, n.type = t₁ ∧ n.id = x)
    (h2 : ∀ y ∈ ys, ∃ n ∈ ns, n.type = t₂ ∧ n.id = y) :
    xs.Disjoint ys := by
  intro x hx hy
  obtain ⟨n₁, hn₁, htp₁, hid₁⟩ := h1 x hx
  obtain ⟨n₂, hn₂, htp₂, hid₂⟩ := h2 x hy
  have heq : n₁ = n₂ :=
    List.inj_on_of_nodup_map hids hn₁ hn₂ (by rw [hid₁, hid₂])
  apply ht
  rw [← htp₁, heq, htp₂]

/-- Distinct keys partition the elements: flattening the per-key filters is a
permutation of the single filter by key membership. -/
theorem flatten_filter_keys_perm {α : Type} (keyOf : α → String) (other : α → Bool) :
    ∀ (keys : List String), keys.Nodup → ∀ (l : List α),
      List.Perm
        ((keys.map (fun k => l.filter (fun a => keyOf a == k && other a))).flatten)
        (l.filter (fun a => keys.contains (keyOf a) && other a)) := by
  intro keys
  induction keys with
  | nil =>
    intro _ l
    simp
  | cons k keys ih =>
    intro hnd l
    have hk : k ∉ keys := by
      rw [List.nodup_cons] at hnd
      exact hnd.1
    have hnd' : keys.Nodup := by
      rw [List.nodup_cons] at hnd
      exact hnd.2
    simp only [List.map_cons, List.flatten_cons]
    have hdis : ∀ x ∈ l,
        ¬((keyOf x == k && other x) = true ∧ (keys.contains (keyOf x) && other x) = true) := by
      intro x _ hand
      obtain ⟨ha, hb⟩ := hand
      have h1 : keyOf x = k := by
        have := Bool.and_elim_left ha
        simpa using this
      have h2 : keyOf x ∈ keys := by
        have := Bool.and_elim_left hb
        exact List.elem_iff.mp this
      exact hk (h1 ▸ h2)
    refine List.Perm.trans (List.Perm.append_left _ (ih hnd' l)) ?_
    refine List.Perm.trans (filter_or_disjoint_perm _ _ l hdis) ?_
    have heq : l.filter
        (fun x => (keyOf x == k && other x) || (keys.contains (keyOf x) && other x)) =
        l.filter (fun x => (k :: keys).contains (keyOf x) && other x) := by
      refine List.filter_congr ?_
      intro x _
      rw [List.contains_cons]
      cases h1 : keyOf x == k <;> cases h2 : keys.contains (keyOf x) <;>
        cases h3 : other x <;> simp [h1, h2, h3]
    rw [heq]

/-- C10 counterexample: two session nodes with pairwise-distinct node ids
`session-k` and `s2` but the same payload key `k`.  The single `k` column
receives two copies of the session item, so the output carries the id
`session-k` twice and three nodes in total — not one positioned node per
input id. -/
theorem layout_preserves_nodes_cex :
    (([⟨"session-k", "session", NodeData.session ⟨"k", none, some 1⟩, ⟨0, 0⟩⟩,
       ⟨"s2", "session", NodeData.session ⟨"k", none, some 1⟩, ⟨0, 0⟩⟩] :
        List Node).map (·.id)).Nodup ∧
    ((layoutGraph
        [⟨"session-k", "session", NodeData.session ⟨"k", none, some 1⟩, ⟨0, 0⟩⟩,
         ⟨"s2", "session", NodeData.session ⟨"k", none, some 1⟩, ⟨0, 0⟩⟩]
        [] {} 0).1.map (·.id)) = ["session-k", "session-k", "s2"] ∧
    ¬ List.Perm
        ((layoutGraph
          [⟨"session-k", "session", NodeData.session ⟨"k", none, some 1⟩, ⟨0, 0⟩⟩,
           ⟨"s2", "session", NodeData.session ⟨"k", none, some 1⟩, ⟨0, 0⟩⟩]
          [] {} 0).1.map (·.id))
        (([⟨"session-k", "session", NodeData.session ⟨"k", none, some 1⟩, ⟨0, 0⟩⟩,
           ⟨"s2", "session", NodeData.session ⟨"k", none, some 1⟩, ⟨0, 0⟩⟩] :
            List Node).map (·.id)) := by
  refine ⟨by decide, by decide, by decide⟩

/-- Pointwise congruence for a filter followed by a map. -/
theorem filter_map_congr {α β : Type} :
    ∀ (l : List α) (p q : α → Bool) (f g : α → β),
      (∀ x ∈ l, p x = q x) → (∀ x ∈ l, q x = true → f x = g x) →
      (l.filter p).map f = (l.filter q).map g := by
  intro l
  induction l with
  | nil => intro p q f g _ _; rfl
  | cons x rest ih =>
    intro p q f g h1 h2
    have hx := h1 x (List.mem_cons_self x rest)
    have hrest := ih p q f g (fun y hy => h1 y (List.mem_cons_of_mem _ hy))
      (fun y hy hqy => h2 y (List.mem_cons_of_mem _ hy) hqy)
    cases hq : q x with
    | true =>
      have hp : p x = true := hx.trans hq
      simp only [List.filter_cons, hp, hq, if_true, List.map_cons]
      rw [h2 x (List.mem_cons_self x rest) hq, hrest]
    | false =>
      have hp : p x = false := hx.trans hq
      simp only [List.filter_cons, hp, hq, Bool.false_eq_true, if_false]
      exact hrest

/-- The flattened per-session action groups carry exactly the ids of the
action nodes homed to a present session. -/
theorem homed_action_ids (ns : List Node)
    (A : List (String × List (String × MonitorAction)))
    (hkeys : ((sessionsOf ns).map (·.key)).Nodup)
    (hact : ∀ n ∈ ns, n.type = "action" → "action-" ++ replaceFirst n.id "action-" = n.id)
    (hA : ∀ k, ¬(k = "") → List.Perm ((A.lookup k).getD [])
      ((actionsOf ns).filter (fun a => a.2.sessionKey == k)))
    (hA0 : A.lookup "" = none) :
    List.Perm
      (((sessionsOf ns).map
        (fun s => ((A.lookup s.key).getD []).map (fun a => "action-" ++ a.1))).flatten)
      ((ns.filter (fun n => n.type == "action" &&
        (((sessionsOf ns).map (·.key)).contains (n.data.asAction).sessionKey &&
          !((n.data.asAction).sessionKey == "")))).map (·.id)) := by
  have hper : ∀ s ∈ sessionsOf ns,
      List.Perm (((A.lookup s.key).getD []).map (fun a => "action-" ++ a.1))
        (((actionsOf ns).filter
          (fun a => a.2.sessionKey == s.key && !(a.2.sessionKey == ""))).map
            (fun a => "action-" ++ a.1)) := by
    intro s _
    by_cases hk : s.key = ""
    · rw [hk, hA0]
      have hnil : (actionsOf ns).filter
          (fun a => a.2.sessionKey == "" && !(a.2.sessionKey == "")) = [] := by
        refine List.filter_eq_nil_iff.mpr ?_
        intro a _
        cases h : a.2.sessionKey == "" <;> simp [h]
      rw [hnil]
      simp
    · have heq : (actionsOf ns).filter (fun a => a.2.sessionKey == s.key) =
          (actionsOf ns).filter
            (fun a => a.2.sessionKey == s.key && !(a.2.sessionKey == "")) := by
        refine List.filter_congr ?_
        intro a _
        cases h : a.2.sessionKey == s.key with
        | false => simp [h]
        | true =>
          have ha : a.2.sessionKey = s.key := by simpa using h
          have hne : (a.2.sessionKey == "") = false := by
            rw [ha]
            simpa using hk
          simp [h, hne]
      rw [← heq]
      exact (hA s.key hk).map _
  refine List.Perm.trans (flatten_map_perm _ _ (sessionsOf ns) hper) ?_
  have hm1 : (sessionsOf ns).map
      (fun s => ((actionsOf ns).filter
        (fun a => a.2.sessionKey == s.key && !(a.2.sessionKey == ""))).map
          (fun a => "action-" ++ a.1)) =
      (((sessionsOf ns).map (·.key)).map
        (fun k => (actionsOf ns).filter
          (fun a => a.2.sessionKey == k && !(a.2.sessionKey == "")))).map
        (List.map (fun a => "action-" ++ a.1)) := by
    rw [List.map_map, List.map_map]
    rfl
  rw [hm1, ← List.map_flatten]
  refine List.Perm.trans
    (List.Perm.map _ (flatten_filter_keys_perm (fun a => a.2.sessionKey)
      (fun a => !(a.2.sessionKey == "")) ((sessionsOf ns).map (·.key)) hkeys
      (actionsOf ns))) ?_
  unfold actionsOf
  rw [List.filter_map, List.map_map, List.filter_filter]
  exact List.Perm.of_eq (filter_map_congr ns _ _ _ _
    (fun n _ => Bool.and_comm _ _)
    (fun n hn htq => by
      have htp : n.type = "action" := by
        have := Bool.and_elim_left htq
        simpa using this
      exact hact n hn htp))

/-- The exec twin of `homed_action_ids`. -/
theorem homed_exec_ids (ns : List Node)
    (E : List (String × List (String × MonitorExecProcess)))
    (hkeys : ((sessionsOf ns).map (·.key)).Nodup)
    (hexec : ∀ n ∈ ns, n.type = "exec" → "exec-" ++ replaceFirst n.id "exec-" = n.id)
    (hE : ∀ k, ¬(k = "") → List.Perm ((E.lookup k).getD [])
      ((execsOf ns).filter (fun e => e.2.sessionKey == k)))
    (hE0 : E.lookup "" = none) :
    List.Perm
      (((sessionsOf ns).map
        (fun s => ((E.lookup s.key).getD []).map (fun e => "exec-" ++ e.1))).flatten)
      ((ns.filter (fun n => n.type == "exec" &&
        (((sessionsOf ns).map (·.key)).contains (n.data.asExec).sessionKey &&
          !((n.data.asExec).sessionKey == "")))).map (·.id)) := by
  have hper : ∀ s ∈ sessionsOf ns,
      List.Perm (((E.lookup s.key).getD []).map (fun e => "exec-" ++ e.1))
        (((execsOf ns).filter
          (fun e => e.2.sessionKey == s.key && !(e.2.sessionKey == ""))).map
            (fun e => "exec-" ++ e.1)) := by
    intro s _
    by_cases hk : s.key = ""
    · rw [hk, hE0]
      have hnil : (execsOf ns).filter
          (fun e => e.2.sessionKey == "" && !(e.2.sessionKey == "")) = [] := by
        refine List.filter_eq_nil_iff.mpr ?_
        intro e _
        cases h : e.2.sessionKey == "" <;> simp [h]
      rw [hnil]
      simp
    · have heq : (execsOf ns).filter (fun e => e.2.sessionKey == s.key) =
          (execsOf ns).filter
            (fun e => e.2.sessionKey == s.key && !(e.2.sessionKey == "")) := by
        refine List.filter_congr ?_
        intro e _
        cases h : e.2.sessionKey == s.key with
        | false => simp [h]
        | true =>
          have ha : e.2.sessionKey = s.key := by simpa using h
          have hne : (e.2.sessionKey == "") = false := by
            rw [ha]
            simpa using hk
          simp [h, hne]
      rw [← heq]
      exact (hE s.key hk).map _
  refine List.Perm.trans (flatten_map_perm _ _ (sessionsOf ns) hper) ?_
  have hm1 : (sessionsOf ns).map
      (fun s => ((execsOf ns).filter
        (fun e => e.2.sessionKey == s.key && !(e.2.sessionKey == ""))).map
          (fun e => "exec-" ++ e.1)) =
      (((sessionsOf ns).map (·.key)).map
        (fun k => (execsOf ns).filter
          (fun e => e.2.sessionKey == k && !(e.2.sessionKey == "")))).map
        (List.map (fun e => "exec-" ++ e.1)) := by
    rw [List.map_map, List.map_map]
    rfl
  rw [hm1, ← List.map_flatten]
  refine List.Perm.trans
    (List.Perm.map _ (flatten_filter_keys_perm (fun e => e.2.sessionKey)
      (fun e => !(e.2.sessionKey == "")) ((sessionsOf ns).map (·.key)) hkeys
      (execsOf ns))) ?_
  unfold execsOf
  rw [List.filter_map, List.map_map, List.filter_filter]
  exact List.Perm.of_eq (filter_map_congr ns _ _ _ _
    (fun n _ => Bool.and_comm _ _)
    (fun n hn htq => by
      have htp : n.type = "exec" := by
        have := Bool.and_elim_left htq
        simpa using this
      exact hexec n hn htp))

/-- Filtering the id list by non-membership equals mapping the ids of the
non-positioned nodes. -/
theorem filter_contains_map (P : List String) (ns : List Node) :
    (ns.map (·.id)).filter (fun x => !(P.contains x)) =
      (ns.filter (fun n => !(P.contains n.id))).map (·.id) := by
  rw [List.filter_map]
  rfl

/-- Core of C10: under the id conventions, the positioning fold followed by
the orphan pass emits every input node id exactly once. -/
theorem positioned_all_perm (ns : List Node) (isHorizontal : Bool) (now : Int)
    (rm : List (String × Nat)) (cols : List (String × SessionColumn))
    (st0 : PositionState) (sortedKeys : List String) (orphanY : Int)
    (hids : (ns.map (·.id)).Nodup)
    (hkeys : ((sessionsOf ns).map (·.key)).Nodup)
    (hsess : ∀ n ∈ ns, n.type = "session" → "session-" ++ n.data.asSession.key = n.id)
    (hact : ∀ n ∈ ns, n.type = "action" → "action-" ++ replaceFirst n.id "action-" = n.id)
    (hexec : ∀ n ∈ ns, n.type = "exec" → "exec-" ++ replaceFirst n.id "exec-" = n.id)
    (hcols : cols = computeSpawnY (sessionsOf ns) (actionsBySessionOf (actionsOf ns))
      (buildItems (sessionsOf ns) (actionsBySessionOf (actionsOf ns))
        (execsBySessionOf (execsOf ns)) ((assignColumns (sessionsOf ns) rm).1)) now)
    (hsorted : List.Perm sortedKeys (cols.map Prod.fst))
    (hst0 : st0.positionedNodes.map (·.id) = st0.positionedIds)
    (hst0n : st0.positionedIds.Nodup)
    (hst0sub : ∀ x ∈ st0.positionedIds, ∃ n ∈ ns, n.type = "crab" ∧ n.id = x) :
    List.Perm
      (((positionColumns isHorizontal cols sortedKeys st0).positionedNodes ++
        placeOrphans ns
          (positionColumns isHorizontal cols sortedKeys st0).positionedIds orphanY).map (·.id))
      (ns.map (·.id)) := by
  have hfst : cols.map Prod.fst = (sessionsOf ns).map (·.key) := by
    rw [hcols, computeSpawnY_fst, buildItems_fst, assignColumns_fst (sessionsOf ns) rm hkeys]
  have hsorted' : List.Perm sortedKeys ((sessionsOf ns).map (·.key)) := by
    rw [hfst] at hsorted
    exact hsorted
  have hentry : ∀ s ∈ sessionsOf ns,
      List.Perm (((cols.lookup s.key).getD defaultColumn).items.map (·.nodeId))
        (("session-" ++ s.key) ::
          ((((actionsBySessionOf (actionsOf ns)).lookup s.key).getD []).map
              (fun a => "action-" ++ a.1) ++
            (((execsBySessionOf (execsOf ns)).lookup s.key).getD []).map
              (fun e => "exec-" ++ e.1))) := by
    intro s hs
    obtain ⟨c, hc, hcnil⟩ := assignColumns_lookup (sessionsOf ns) rm hkeys s hs
    have hb := buildItems_lookup (actionsBySessionOf (actionsOf ns))
      (execsBySessionOf (execsOf ns)) s c (sessionsOf ns)
      ((assignColumns (sessionsOf ns) rm).1) hkeys hs hc
    have hi := computeSpawnY_items (actionsBySessionOf (actionsOf ns)) now s.key
      (sessionsOf ns)
      (buildItems (sessionsOf ns) (actionsBySessionOf (actionsOf ns))
        (execsBySessionOf (execsOf ns)) ((assignColumns (sessionsOf ns) rm).1))
    rw [hb, ← hcols] at hi
    cases hcl : cols.lookup s.key with
    | none =>
      rw [hcl] at hi
      simp at hi
    | some c' =>
      rw [hcl] at hi
      have hitems : c'.items =
          (c.items ++ [sessionItem s]
            ++ (((actionsBySessionOf (actionsOf ns)).lookup s.key).getD []).map actionItem
            ++ (((execsBySessionOf (execsOf ns)).lookup s.key).getD []).map
                execItem).insertionSort itemLe := by
        simpa using hi
      simp only [Option.getD_some]
      rw [hitems, hcnil]
      refine List.Perm.trans (List.Perm.map _ (List.perm_insertionSort itemLe _)) ?_
      refine List.Perm.of_eq ?_
      simp only [List.nil_append, List.map_append, List.map_map, List.map_cons,
        List.cons_append, sessionItem]
      congr 1
  have hflat : List.Perm
      ((sortedKeys.map (fun k =>
        ((cols.lookup k).getD defaultColumn).items.map (·.nodeId))).flatten)
      (((ns.filter (fun n => n.type == "session")).map (·.id)) ++
        (((ns.filter (fun n => n.type == "action" &&
            (((sessionsOf ns).map (·.key)).contains (n.data.asAction).sessionKey &&
              !((n.data.asAction).sessionKey == "")))).map (·.id)) ++
          ((ns.filter (fun n => n.type == "exec" &&
            (((sessionsOf ns).map (·.key)).contains (n.data.asExec).sessionKey &&
              !((n.data.asExec).sessionKey == "")))).map (·.id)))) := by
    refine List.Perm.trans (List.Perm.flatten (List.Perm.map _ hsorted')) ?_
    rw [List.map_map]
    refine List.Perm.trans (flatten_map_perm _
      (fun (s : MonitorSession) => ("session-" ++ s.key) ::
        ((((actionsBySessionOf (actionsOf ns)).lookup s.key).getD []).map
            (fun a => "action-" ++ a.1) ++
          (((execsBySessionOf (execsOf ns)).lookup s.key).getD []).map
            (fun e => "exec-" ++ e.1)))
      (sessionsOf ns) (fun s hs => hentry s hs)) ?_
    refine List.Perm.trans (flatten_map_split
      (fun (s : MonitorSession) => "session-" ++ s.key)
      (fun (s : MonitorSession) =>
        (((actionsBySessionOf (actionsOf ns)).lookup s.key).getD []).map
          (fun a => "action-" ++ a.1))
      (fun (s : MonitorSession) =>
        (((execsBySessionOf (execsOf ns)).lookup s.key).getD []).map
          (fun e => "exec-" ++ e.1))
      (sessionsOf ns)) ?_
    refine List.Perm.append ?_ (List.Perm.append ?_ ?_)
    · refine List.Perm.of_eq ?_
      unfold sessionsOf
      rw [List.map_map]
      refine List.map_congr_left ?_
      intro n hn
      have hn' := List.mem_filter.mp hn
      have htp : n.type = "session" := by simpa using hn'.2
      exact hsess n hn'.1 htp
    · exact homed_action_ids ns (actionsBySessionOf (actionsOf ns)) hkeys hact
        (fun k hk => groupSorted_lookup_perm
          (fun (a : String × MonitorAction) => a.2.sessionKey) actionTimeLe
          (actionsOf ns) k hk)
        (groupSorted_lookup_none (fun (a : String × MonitorAction) => a.2.sessionKey)
          actionTimeLe (actionsOf ns))
    · exact homed_exec_ids ns (execsBySessionOf (execsOf ns)) hkeys hexec
        (fun k hk => groupSorted_lookup_perm
          (fun (e : String × MonitorExecProcess) => e.2.sessionKey) execTimeLe
          (execsOf ns) k hk)
        (groupSorted_lookup_none (fun (e : String × MonitorExecProcess) => e.2.sessionKey)
          execTimeLe (execsOf ns))
  obtain ⟨hnodes, hidsP⟩ := positionColumns_acc isHorizontal cols sortedKeys st0
  rw [List.map_append, hnodes, hst0, placeOrphans_ids, hidsP, ← filter_contains_map]
  refine perm_positioned_filter _ _ hids ?_ ?_
  · refine ((List.Perm.append_left st0.positionedIds hflat).nodup_iff).mpr ?_
    have hsessN : ((ns.filter (fun n => n.type == "session")).map (·.id)).Nodup :=
      hids.sublist ((List.filter_sublist _).map _)
    have hactN : ((ns.filter (fun n => n.type == "action" &&
        (((sessionsOf ns).map (·.key)).contains (n.data.asAction).sessionKey &&
          !((n.data.asAction).sessionKey == "")))).map (·.id)).Nodup :=
      hids.sublist ((List.filter_sublist _).map _)
    have hexecN : ((ns.filter (fun n => n.type == "exec" &&
        (((sessionsOf ns).map (·.key)).contains (n.data.asExec).sessionKey &&
          !((n.data.asExec).sessionKey == "")))).map (·.id)).Nodup :=
      hids.sublist ((List.filter_sublist _).map _)
    have hsessW : ∀ x ∈ (ns.filter (fun n => n.type == "session")).map (·.id),
        ∃ n ∈ ns, n.type = "session" ∧ n.id = x := by
      intro x hx
      obtain ⟨n, hn, hid⟩ := List.mem_map.mp hx
      have hn' := List.mem_filter.mp hn
      exact ⟨n, hn'.1, by simpa using hn'.2, hid⟩
    have hactW : ∀ x ∈ (ns.filter (fun n => n.type == "action" &&
        (((sessionsOf ns).map (·.key)).contains (n.data.asAction).sessionKey &&
          !((n.data.asAction).sessionKey == "")))).map (·.id),
        ∃ n ∈ ns, n.type = "action" ∧ n.id = x := by
      intro x hx
      obtain ⟨n, hn, hid⟩ := List.mem_map.mp hx
      have hn' := List.mem_filter.mp hn
      have htp : n.type = "action" := by
        have := Bool.and_elim_left hn'.2
        simpa using this
      exact ⟨n, hn'.1, htp, hid⟩
    have hexecW : ∀ x ∈ (ns.filter (fun n => n.type == "exec" &&
        (((sessionsOf ns).map (·.key)).contains (n.data.asExec).sessionKey &&
          !((n.data.asExec).sessionKey == "")))).map (·.id),
        ∃ n ∈ ns, n.type = "exec" ∧ n.id = x := by
      intro x hx
      obtain ⟨n, hn, hid⟩ := List.mem_map.mp hx
      have hn' := List.mem_filter.mp hn
      have htp : n.type = "exec" := by
        have := Bool.and_elim_left hn'.2
        simpa using this
      exact ⟨n, hn'.1, htp, hid⟩
    have hdSA := disjoint_ids_lists ns hids _ _ "session" "action" (by decide) hsessW hactW
    have hdSE := disjoint_ids_lists ns hids _ _ "session" "exec" (by decide) hsessW hexecW
    have hdAE := disjoint_ids_lists ns hids _ _ "action" "exec" (by decide) hactW hexecW
    have hdCS := disjoint_ids_lists ns hids _ _ "crab" "session" (by decide) hst0sub hsessW
    have hdCA := disjoint_ids_lists ns hids _ _ "crab" "action" (by decide) hst0sub hactW
    have hdCE := disjoint_ids_lists ns hids _ _ "crab" "exec" (by decide) hst0sub hexecW
    refine List.nodup_append.mpr ⟨hst0n, ?_, ?_⟩
    · refine List.nodup_append.mpr ⟨hsessN, ?_, ?_⟩
      · exact List.nodup_append.mpr ⟨hactN, hexecN, hdAE⟩
      · rw [List.disjoint_append_right]
        exact ⟨hdSA, hdSE⟩
    · rw [List.disjoint_append_right, List.disjoint_append_right]
      exact ⟨hdCS, hdCA, hdCE⟩
  · intro x hx
    rcases List.mem_append.mp hx with h0 | hF
    · obtain ⟨n, hn, _, hid⟩ := hst0sub x h0
      exact hid ▸ List.mem_map_of_mem (fun n => n.id) hn
    · have hG := hflat.mem_iff.mp hF
      rcases List.mem_append.mp hG with hSm | hAE
      · obtain ⟨n, hn, hid⟩ := List.mem_map.mp hSm
        exact hid ▸ List.mem_map_of_mem (fun n => n.id) (List.mem_filter.mp hn).1
      · rcases List.mem_append.mp hAE with hAm | hEm
        · obtain ⟨n, hn, hid⟩ := List.mem_map.mp hAm
          exact hid ▸ List.mem_map_of_mem (fun n => n.id) (List.mem_filter.mp hn).1
        · obtain ⟨n, hn, hid⟩ := List.mem_map.mp hEm
          exact hid ▸ List.mem_map_of_mem (fun n => n.id) (List.mem_filter.mp hn).1

/-- C10 (amended): on inputs with pairwise-distinct node ids that follow the
monitor's id conventions — session node ids are `session-` plus the payload
key, with pairwise-distinct keys, and action/exec node ids contain their
`action-`/`exec-` prefix exactly once at the front — `layoutGraph` returns a
node list whose ids are a permutation of the input ids (each node positioned
exactly once, the non-reconciled ones in the orphan lane) and returns the
input edge list unchanged.  Without the id conventions the property fails,
see the counterexample. -/
theorem layout_preserves_nodes (ns : List Node) (es : List Edge)
    (opts : LayoutOptions) (now : Int)
    (hids : (ns.map (·.id)).Nodup)
    (hkeys : ((sessionsOf ns).map (·.key)).Nodup)
    (hsess : ∀ n ∈ ns, n.type = "session" → "session-" ++ n.data.asSession.key = n.id)
    (hact : ∀ n ∈ ns, n.type = "action" → "action-" ++ replaceFirst n.id "action-" = n.id)
    (hexec : ∀ n ∈ ns, n.type = "exec" → "exec-" ++ replaceFirst n.id "exec-" = n.id) :
    List.Perm ((layoutGraph ns es opts now).1.map (·.id)) (ns.map (·.id)) ∧
      (layoutGraph ns es opts now).2 = es := by
  constructor
  · simp only [layoutGraph]
    cases hcrab : ns.find? (fun n => n.type == "crab") with
    | none =>
      exact positioned_all_perm ns _ now _ _
        { positionedNodes := [], positionedIds := [], columnRanges := [], columnOccupancy := [] }
        _ _ hids hkeys hsess hact hexec rfl (List.perm_insertionSort _ _) rfl
        List.nodup_nil (fun x hx => absurd hx (List.not_mem_nil x))
    | some c =>
      refine positioned_all_perm ns _ now _ _
        { positionedNodes := [{ c with position := CRAB_OFFSET }]
          positionedIds := [c.id], columnRanges := [], columnOccupancy := [] }
        _ _ hids hkeys hsess hact hexec rfl (List.perm_insertionSort _ _) rfl
        (List.nodup_singleton c.id) ?_
      intro x hx
      have hxc : x = c.id := by simpa using hx
      have htp : c.type = "crab" := by
        have := List.find?_some hcrab
        simpa using this
      exact ⟨c, List.mem_of_find?_eq_some hcrab, htp, hxc.symm⟩
  · rfl

/-- Concrete instantiation of `layout_preserves_nodes`: a crab node, a
session with one action and one exec, and an unreconciled note node. -/
theorem layout_preserves_nodes_witness :
    List.Perm
      ((layoutGraph
        [⟨"crab", "crab", NodeData.other, ⟨0, 0⟩⟩,
         ⟨"session-k", "session", NodeData.session ⟨"k", none, some 10⟩, ⟨0, 0⟩⟩,
         ⟨"action-a1", "action", NodeData.action ⟨"k", 5⟩, ⟨0, 0⟩⟩,
         ⟨"exec-e1", "exec", NodeData.exec ⟨"k", 7⟩, ⟨0, 0⟩⟩,
         ⟨"note-1", "note", NodeData.other, ⟨0, 0⟩⟩]
        [⟨"e1", "session-k", "action-a1"⟩] {} 3).1.map (·.id))
      (([⟨"crab", "crab", NodeData.other, ⟨0, 0⟩⟩,
         ⟨"session-k", "session", NodeData.session ⟨"k", none, some 10⟩, ⟨0, 0⟩⟩,
         ⟨"action-a1", "action", NodeData.action ⟨"k", 5⟩, ⟨0, 0⟩⟩,
         ⟨"exec-e1", "exec", NodeData.exec ⟨"k", 7⟩, ⟨0, 0⟩⟩,
         ⟨"note-1", "note", NodeData.other, ⟨0, 0⟩⟩] : List Node).map (·.id)) ∧
    (layoutGraph
        [⟨"crab", "crab", NodeData.other, ⟨0, 0⟩⟩,
         ⟨"session-k", "session", NodeData.session ⟨"k", none, some 10⟩, ⟨0, 0⟩⟩,
         ⟨"action-a1", "action", NodeData.action ⟨"k", 5⟩, ⟨0, 0⟩⟩,
         ⟨"exec-e1", "exec", NodeData.exec ⟨"k", 7⟩, ⟨0, 0⟩⟩,
         ⟨"note-1", "note", NodeData.other, ⟨0, 0⟩⟩]
        [⟨"e1", "session-k", "action-a1"⟩] {} 3).2 = [⟨"e1", "session-k", "action-a1"⟩] :=
  layout_preserves_nodes
    [⟨"crab", "crab", NodeData.other, ⟨0, 0⟩⟩,
     ⟨"session-k", "session", NodeData.session ⟨"k", none, some 10⟩, ⟨0, 0⟩⟩,
     ⟨"action-a1", "action", NodeData.action ⟨"k", 5⟩, ⟨0, 0⟩⟩,
     ⟨"exec-e1", "exec", NodeData.exec ⟨"k", 7⟩, ⟨0, 0⟩⟩,
     ⟨"note-1", "note", NodeData.other, ⟨0, 0⟩⟩]
    [⟨"e1", "session-k", "action-a1"⟩] {} 3
    (by decide) (by decide) (by decide) (by decide) (by decide)

end Layout

end Crabwalk
